import Mathlib

/-!
Verification development for the `easy_sqlshow` repository (files `app.py` and
`add_column_simple.py`).  The Python source is shallowly embedded: pure helper
functions become Lean functions over `List Char` / `String`, numeric values are
modelled by exact rationals `ℚ` (Python `float` literals are parsed exactly;
this is noted wherever IEEE-754 rounding could differ), SQL result sets become
lists of records, and the grouped-statistics SQL query is embedded clause by
clause.
-/

namespace EasySqlshow

/-! ### Python string primitives -/

/-- ASCII whitespace as recognised by Python `str.strip()` / `float()` argument
stripping.  (Python additionally strips some Unicode space characters, which do
not occur in this repository's data.) -/
def pyIsSpace (c : Char) : Bool :=
  c = ' ' || c = '\t' || c = '\n' || c = '\r' || c = '\x0b' || c = '\x0c'

/-- Truthiness of `value.strip()` being empty: the string is empty or consists
only of whitespace.  `not value or not value.strip()` in the source is exactly
this predicate. -/
def pyBlank (s : String) : Bool :=
  s.toList.all pyIsSpace

/-- Python `c in value` for a single character. -/
def containsChar (s : String) (c : Char) : Bool :=
  s.toList.any (fun x => x = c)

/-- The source's scientific-notation test `'E' in value.upper() or 'e' in value`,
which is equivalent to: the string contains `e` or `E`. -/
def containsExp (s : String) : Bool :=
  containsChar s 'e' || containsChar s 'E'

/-! ### Python `float()` literal parsing, modelled exactly over `ℚ`

`float(value)` parses an optional sign, a digit string with an optional single
decimal point, and an optional exponent part, after stripping surrounding
whitespace.  The model returns the exact rational value of the literal
(deviation: IEEE-754 doubles round the value; the claims below only inspect
parse success and magnitude relative to `1e±308`, where exact and rounded
values agree except for literals below the subnormal threshold `~5e-324`,
which Python flushes to `0.0`.  Textual specials `inf` / `nan` and digit
underscores are not modelled; they do not occur in the claims). -/

/-- Consume an optional `+` / `-` sign; `true` means negative. -/
def pySign : List Char → Bool × List Char
  | '+' :: r => (false, r)
  | '-' :: r => (true, r)
  | l => (false, l)

/-- Value of a list of decimal digits (most significant first). -/
def digitsVal (ds : List Char) : ℕ :=
  ds.foldl (fun a c => 10 * a + (c.toNat - 48)) 0

/-- Parse the optional exponent part and require the input to be fully
consumed.  Returns the exponent. -/
def parseExpPart : List Char → Option ℤ
  | [] => some 0
  | c :: r =>
    if c = 'e' || c = 'E' then
      let s := pySign r
      let d := s.2.span Char.isDigit
      if d.1.isEmpty || !d.2.isEmpty then none
      else some (if s.1 then -(digitsVal d.1 : ℤ) else (digitsVal d.1 : ℤ))
    else none

/-- Exact rational value of a parsed float literal: sign, concatenated
integer+fraction digits `mant`, fraction length `scale`, exponent `ex`;
the value is `±mant · 10 ^ (ex - scale)`.  Built with `mkRat` over integer
arithmetic so that the kernel can evaluate it. -/
def qOfParts (neg : Bool) (mant : ℕ) (scale : ℕ) (ex : ℤ) : ℚ :=
  let m : ℤ := if neg then -(mant : ℤ) else (mant : ℤ)
  let net : ℤ := ex - (scale : ℤ)
  if 0 ≤ net then mkRat (m * ((10 ^ net.toNat : ℕ) : ℤ)) 1
  else mkRat m (10 ^ (-net).toNat)

/-- Parse a full (already stripped) float literal. -/
def parseFloatCore (l : List Char) : Option ℚ :=
  let s := pySign l
  let ip := s.2.span Char.isDigit
  match ip.2 with
  | '.' :: r =>
    let fp := r.span Char.isDigit
    if ip.1.isEmpty && fp.1.isEmpty then none
    else
      match parseExpPart fp.2 with
      | some ex => some (qOfParts s.1 (digitsVal (ip.1 ++ fp.1)) fp.1.length ex)
      | none => none
  | rest =>
    if ip.1.isEmpty then none
    else
      match parseExpPart rest with
      | some ex => some (qOfParts s.1 (digitsVal ip.1) 0 ex)
      | none => none

/-- Python `float(value)`: strip whitespace, then parse; `none` models a
`ValueError`. -/
def parseFloat (s : String) : Option ℚ :=
  parseFloatCore (((s.toList.dropWhile pyIsSpace).reverse.dropWhile pyIsSpace).reverse)

/-! ### Type inference (`infer_data_type`, app.py lines 53-113) -/

/-- `1e308` as an exact rational. -/
def bigQ : ℚ := mkRat ((10 ^ 308 : ℕ) : ℤ) 1

/-- `-1e308` as an exact rational. -/
def negBigQ : ℚ := mkRat (-((10 ^ 308 : ℕ) : ℤ)) 1

/-- `1e-308` as an exact rational. -/
def smallQ : ℚ := mkRat 1 (10 ^ 308)

/-- `-1e-308` as an exact rational. -/
def negSmallQ : ℚ := mkRat (-1) (10 ^ 308)

/-- The source's magnitude-safety test
`abs(float_val) > 1e308 or (abs(float_val) < 1e-308 and float_val != 0)`,
written without `abs` so that every connective is a kernel-reducible
comparison. -/
def unsafeMagnitude (q : ℚ) : Prop :=
  bigQ < q ∨ q < negBigQ ∨ (negSmallQ < q ∧ q < smallQ ∧ q ≠ 0)

instance (q : ℚ) : Decidable (unsafeMagnitude q) := by
  unfold unsafeMagnitude; infer_instance

/-- The counting loop of `infer_data_type`: walks the samples accumulating
`(numeric_count, decimal_count, scientific_count)`; `none` models the early
`return 'TEXT'` taken when a scientific-notation value has unsafe magnitude.
(The source increments the counters before the early return; since the early
return discards them, checking first is equivalent.) -/
def scanSamples : List String → ℕ → ℕ → ℕ → Option (ℕ × ℕ × ℕ)
  | [], n, d, sc => some (n, d, sc)
  | v :: rest, n, d, sc =>
    if pyBlank v then scanSamples rest n d sc
    else if containsExp v then
      match parseFloat v with
      | some q =>
        if unsafeMagnitude q then none else scanSamples rest (n + 1) d (sc + 1)
      | none => scanSamples rest n d sc
    else
      match parseFloat v with
      | some _ =>
        scanSamples rest (n + 1) (if containsChar v '.' then d + 1 else d) sc
      | none => scanSamples rest n d sc

/-- Match exactly `k` decimal digits at the front, returning the rest. -/
def matchDigits : ℕ → List Char → Option (List Char)
  | 0, l => some l
  | _ + 1, [] => none
  | k + 1, c :: l => if c.isDigit then matchDigits k l else none

/-- Match one literal character at the front, returning the rest. -/
def matchLit (c : Char) : List Char → Option (List Char)
  | [] => none
  | x :: l => if x = c then some l else none

/-- `re.match(r'\d{4}-\d{2}-\d{2}', value)`: a prefix match (re.match anchors
only at the start). -/
def datePat1 (s : String) : Bool :=
  ((((matchDigits 4 s.toList).bind (matchLit '-')).bind
      (matchDigits 2)).bind (matchLit '-') >>= matchDigits 2).isSome

/-- `re.match(r'\d{2}/\d{2}/\d{4}', value)` as a prefix match. -/
def datePat2 (s : String) : Bool :=
  ((((matchDigits 2 s.toList).bind (matchLit '/')).bind
      (matchDigits 2)).bind (matchLit '/') >>= matchDigits 4).isSome

/-- `re.match(r'\d{4}-\d{2}-\d{2} \d{2}:\d{2}:\d{2}', value)` as a prefix
match. -/
def datePat3 (s : String) : Bool :=
  ((((((((matchDigits 4 s.toList).bind (matchLit '-')).bind
      (matchDigits 2)).bind (matchLit '-')).bind (matchDigits 2)).bind
      (matchLit ' ') >>= matchDigits 2).bind (matchLit ':') >>=
      matchDigits 2).bind (matchLit ':') >>= matchDigits 2).isSome

/-- The source's `all(re.match(pattern, value) for value in sample_values if
value.strip())`: every non-blank sample matches (vacuously true when every
sample is blank). -/
def allNonBlankMatch (pat : String → Bool) (sample_values : List String) : Bool :=
  sample_values.all (fun v => pyBlank v || pat v)

/-- `infer_data_type(sample_values)` (app.py lines 53-113).  The numeric
majority test `numeric_count > len(sample_values) * 0.8` is modelled as
`5 * numeric_count > 4 * len`, which agrees with the Python float computation
for every list length (`len * 0.8` rounds to exactly `4k` when `len = 5k`, and
is never within one ulp of an integer otherwise). -/
def infer_data_type (sample_values : List String) : String :=
  if sample_values.isEmpty then "TEXT"
  else
    match scanSamples sample_values 0 0 0 with
    | none => "TEXT"
    | some (numeric, dec, sci) =>
      if 5 * numeric > 4 * sample_values.length then
        if 0 < sci then "TEXT"
        else if 0 < dec then "DECIMAL(10, 4)"
        else "INTEGER"
      else if allNonBlankMatch datePat1 sample_values then "DATETIME"
      else if allNonBlankMatch datePat2 sample_values then "DATETIME"
      else if allNonBlankMatch datePat3 sample_values then "DATETIME"
      else "TEXT"

/-! ### Column-name normalisation (`clean_column_name`, app.py lines 20-50) -/

/-- The character class `[a-zA-Z0-9_]` of the non-preserving regex. -/
def isAsciiWordChar (c : Char) : Bool :=
  c.isAlpha || c.isDigit || c = '_'

/-- The CJK range `一-鿿` of the preserving regex. -/
def isCJK (c : Char) : Bool :=
  0x4e00 ≤ c.toNat && c.toNat ≤ 0x9fff

/-- Characters kept (not replaced by `_`) by `re.sub` in `clean_column_name`.
In preserve mode the source pattern is `[^\w一-鿿]` with Unicode-aware
`\w`; the model keeps ASCII word characters and the CJK range (the spec scopes
headers to Latin/CJK-mixed text). -/
def allowedChar (preserve_chinese : Bool) (c : Char) : Bool :=
  if preserve_chinese then isAsciiWordChar c || isCJK c else isAsciiWordChar c

/-- ASCII uppercase test. -/
def isUpperAscii (c : Char) : Bool :=
  'A' ≤ c && c ≤ 'Z'

/-- The lowercase alphabet, used as a lookup table for `str.lower()`. -/
def lowerChars : List Char :=
  ['a', 'b', 'c', 'd', 'e', 'f', 'g', 'h', 'i', 'j', 'k', 'l', 'm',
   'n', 'o', 'p', 'q', 'r', 's', 't', 'u', 'v', 'w', 'x', 'y', 'z']

/-- `str.lower()` on one character (table lookup equivalent of adding 32 to an
uppercase code point; only ASCII occurs in the non-preserve mode, the only
mode that lowercases). -/
def asciiLower (c : Char) : Char :=
  if isUpperAscii c then lowerChars.getD (c.toNat - 65) c else c

/-- `re.sub(r'_+', '_', cleaned)`: collapse each run of underscores to one
(a leading underscore is dropped when the collapsed rest already starts with
one). -/
def collapseU : List Char → List Char
  | [] => []
  | c :: rest =>
    if c = '_' ∧ (collapseU rest).head? = some '_' then collapseU rest
    else c :: collapseU rest

/-- `cleaned.strip('_')`: drop leading and trailing underscores. -/
def stripU (l : List Char) : List Char :=
  ((l.dropWhile (fun c => c = '_')).reverse.dropWhile (fun c => c = '_')).reverse

/-- `cleaned and cleaned[0].isdigit()` (Python `isdigit` also accepts Unicode
digits; ASCII digits model the headers in scope). -/
def digitHead : List Char → Bool
  | [] => false
  | c :: _ => c.isDigit

/-- `re.sub` replacement step: every disallowed character becomes `_`. -/
def replaceDisallowed (p : Bool) (l : List Char) : List Char :=
  l.map (fun c => if allowedChar p c then c else '_')

/-- `'col_' + cleaned` when the name starts with a digit. -/
def prefixDigit (l : List Char) : List Char :=
  if digitHead l then 'c' :: 'o' :: 'l' :: '_' :: l else l

/-- `cleaned.lower()`, applied only when not preserving CJK. -/
def lowerStep (p : Bool) (l : List Char) : List Char :=
  if p then l else l.map asciiLower

/-- `clean_column_name(column_name, preserve_chinese)` (app.py lines 20-50):
replace disallowed characters by `_`, prepend `col_` if the result starts
with a digit, lowercase unless preserving, collapse `_` runs, strip `_`.
The source's sequential reassignments of `cleaned` are written as a
pipeline. -/
def clean_column_name (column_name : String) (preserve_chinese : Bool) : String :=
  String.mk (stripU (collapseU (lowerStep preserve_chinese
    (prefixDigit (replaceDisallowed preserve_chinese column_name.toList)))))

/-! ### CSV loading: per-field coercion (`import_csv_to_db`, app.py lines 295-328) -/

/-- A stored SQL value other than NULL: a number or literal text. -/
inductive SqlCell
  | num (q : ℚ)
  | text (s : String)
deriving DecidableEq

/-- The per-field conversion in the insert loop of `import_csv_to_db`:
`i` is the 0-based CSV field position, `none` models SQL NULL.  Blank →
NULL; positions `< 5` stay text; later positions are parsed, scientific
notation outside the safe magnitude range is kept as literal text, and
parse failure falls back to literal text. -/
def import_field_value (i : ℕ) (value : String) : Option SqlCell :=
  if pyBlank value then none
  else if i < 5 then some (.text value)
  else if containsExp value then
    match parseFloat value with
    | some q => if unsafeMagnitude q then some (.text value) else some (.num q)
    | none => some (.text value)
  else
    match parseFloat value with
    | some q => some (.num q)
    | none => some (.text value)

/-! ### Schema building (`analyze_csv_structure` / `generate_sql_table`,
app.py lines 116-217) -/

/-- One entry of the `columns_info` list. -/
structure ColInfo where
  original_name : String
  clean_name : String
  data_type : String
  index : ℕ
deriving DecidableEq, Inhabited

/-- The sample values of column `i`: `row[col_index]` for each sample row
long enough (`if col_index < len(row)`). -/
def colSamples (sample_data : List (List String)) (i : ℕ) : List String :=
  sample_data.filterMap (fun row => row[i]?)

/-- `analyze_csv_structure` on parsed CSV content: `headers` is the header
row, `rows` the data rows, of which the first `sample_rows` are sampled.
Columns from position 5 on preserve CJK characters in their cleaned name. -/
def analyze_csv_structure (headers : List String) (rows : List (List String))
    (sample_rows : ℕ) : List ColInfo :=
  (List.range headers.length).map (fun i =>
    { original_name := headers.getD i ""
      clean_name := clean_column_name (headers.getD i "") (decide (5 ≤ i))
      data_type := infer_data_type (colSamples (rows.take sample_rows) i)
      index := i })

/-- The fixed column definitions of the generated `CREATE TABLE`. -/
def fixedColumnDefs : List String :=
  ["    序号 INTEGER PRIMARY KEY AUTOINCREMENT",
   "    数据集 TEXT NOT NULL",
   "    版本 TEXT NOT NULL",
   "    评估指标 TEXT NOT NULL",
   "    参数 TEXT NOT NULL",
   "    模式 TEXT NOT NULL"]

/-- The emitted definition of one suffix column (app.py lines 203-212):
quoted cleaned name, typed `TEXT` / `INTEGER` when inferred so, and
`DECIMAL(10, 4)` for every other inferred type. -/
def suffixColumnDef (ci : ColInfo) : String :=
  if ci.data_type = "TEXT" then "    \"" ++ ci.clean_name ++ "\" TEXT"
  else if ci.data_type = "INTEGER" then "    \"" ++ ci.clean_name ++ "\" INTEGER"
  else "    \"" ++ ci.clean_name ++ "\" DECIMAL(10, 4)"

/-- The `column_definitions` list built by `generate_sql_table`: the six
fixed definitions followed by one definition per suffix column (source loop
`for i in range(5, len(columns_info))`, guarded by `len(columns_info) > 5`). -/
def column_definitions (headers : List String) (rows : List (List String))
    (sample_rows : ℕ) : List String :=
  fixedColumnDefs ++
    (if 5 < (analyze_csv_structure headers rows sample_rows).length then
      (List.range' 5 ((analyze_csv_structure headers rows sample_rows).length - 5)).map
        (fun i => suffixColumnDef ((analyze_csv_structure headers rows sample_rows).getD i default))
    else [])

/-- `",\n".join(...)` / `"\n".join(...)`. -/
def joinSep (sep : String) : List String → String
  | [] => ""
  | [x] => x
  | x :: xs => x ++ sep ++ joinSep sep xs

/-- `generate_sql_table` (app.py lines 169-217): the full emitted statement. -/
def generate_sql_table (headers : List String) (rows : List (List String))
    (table_name : String) (sample_rows : ℕ) : String :=
  "-- 创建模型评估结果表\n" ++ "CREATE TABLE IF NOT EXISTS " ++ table_name ++ " (\n"
    ++ joinSep ",\n" (column_definitions headers rows sample_rows) ++ "\n);"

/-! ### Decimal rendering helpers -/

/-- Decimal digits of `n`, most significant first (`fuel` bounds the
recursion; `fuel ≥ n` suffices). -/
def natDigitsAux : ℕ → ℕ → List Char
  | 0, _ => []
  | fuel + 1, n => if n = 0 then [] else natDigitsAux fuel (n / 10) ++ [Nat.digitChar (n % 10)]

/-- Decimal string of a natural number. -/
def natStr (n : ℕ) : String :=
  if n = 0 then "0" else String.mk (natDigitsAux (n + 1) n)

/-- Decimal string of an integer. -/
def intStr (m : ℤ) : String :=
  if m < 0 then "-" ++ natStr m.natAbs else natStr m.natAbs

/-- Round `m / d` (`d > 0`) to the nearest integer, ties to even — the
rounding used by Python's string formatting and `round()`. -/
def roundHalfEvenInt (m : ℤ) (d : ℤ) : ℤ :=
  if 2 * (m - Int.fdiv m d * d) < d then Int.fdiv m d
  else if d < 2 * (m - Int.fdiv m d * d) then Int.fdiv m d + 1
  else if Int.fdiv m d % 2 = 0 then Int.fdiv m d else Int.fdiv m d + 1

/-- Python `f"{v:.2f}"` applied to the exact rational value: sign, integer
part, exactly two decimal digits, rounding half-to-even.  (Deviations: Python
rounds the IEEE double nearest to `v`, which can differ on decimal literals
tying at half an ulp; and a negative value rounding to zero prints `-0.00` in
Python but `0.00` here.  No claim depends on either.) -/
def formatTwoDec (q : ℚ) : String :=
  let n := roundHalfEvenInt (q.num * 100) (q.den : ℤ)
  let sgn := if n < 0 then "-" else ""
  let a := n.natAbs
  sgn ++ natStr (a / 100) ++ "." ++
    (if a % 100 < 10 then "0" ++ natStr (a % 100) else natStr (a % 100))

/-! ### Plain table rendering (`render_table`, app.py lines 433-483) -/

/-- Python `str(cell)` where `cell` is a nullable value modelled by its
string form. -/
def pyStrOpt : Option String → String
  | none => "None"
  | some s => s

/-- `len(cell_str.split('.')[1])`: the number of characters between the first
dot and the following dot or end.  (Only evaluated under the `'.' in
cell_str` guard, mirroring the source.) -/
def decimalsAfterDot (s : String) : ℕ :=
  (((s.toList.dropWhile (fun c => !(c = '.'))).drop 1).takeWhile (fun c => !(c = '.'))).length

/-- The cell formatting of `render_table` (app.py lines 456-478): `i` is the
0-based column index (`i > 5` are metric columns), the cell is modelled by
its Python `str()` form, `none` is SQL NULL.  A parseable metric value with
fewer than two decimals (or none) is reformatted to two; otherwise the
string form is kept. -/
def render_table_cell (i : ℕ) (cell : Option String) : String :=
  match cell with
  | none => "None"
  | some s =>
    if 5 < i then
      match parseFloat s with
      | some q =>
        if containsChar s '.' then
          if decimalsAfterDot s < 2 then formatTwoDec q else s
        else formatTwoDec q
      | none => s
    else s

/-- One `<tr>` of `render_table`. -/
def render_table_row (row : List (Option String)) : String :=
  "<tr>" ++ String.join (row.enum.map
    (fun p => "<td>" ++ render_table_cell p.1 p.2 ++ "</td>")) ++ "</tr>"

/-- `render_table(data)` (app.py lines 433-483): first row is the header. -/
def render_table (data : List (List (Option String))) : String :=
  match data with
  | [] => ""
  | hd :: rows =>
    "<table><thead><tr>"
      ++ String.join (hd.map (fun c => "<th>" ++ pyStrOpt c ++ "</th>"))
      ++ "</tr></thead><tbody>"
      ++ String.join (rows.map render_table_row)
      ++ "</tbody></table>"

/-! ### Grouped table rendering (`render_grouped_table`, app.py lines 693-736) -/

/-- The identifier-column names excluded from numeric formatting. -/
def identifierKeys : List String :=
  ["数据集", "评估指标", "参数", "模式", "版本"]

/-- Python `str(value)` on a stored cell.  Text cells print themselves.
Numeric cells would print the shortest round-tripping decimal form of the
double; that branch is only reachable for numeric values in identifier-named
columns, which the pipeline never produces and no claim exercises, so the
model prints `num/den`. -/
def pyStrCell : SqlCell → String
  | .text s => s
  | .num q => intStr q.num ++ "/" ++ natStr q.den

/-- The cell formatting of `render_grouped_table` (app.py lines 713-731):
`i` is the position of the `(key, value)` item in the row dict.  The first
column and identifier-named columns render as literal text (NULL as empty
string); other present values are formatted to two decimals via `float()`,
falling back to their string form when that raises.  (The source's
`isinstance` branch and its `else` branch both evaluate the same f-string
and are collapsed here.) -/
def render_grouped_cell (i : ℕ) (key : String) (value : Option SqlCell) : String :=
  if i = 0 then
    match value with
    | none => ""
    | some c => pyStrCell c
  else
    match value with
    | none => ""
    | some c =>
      if identifierKeys.contains key then pyStrCell c
      else
        match c with
        | .num q => formatTwoDec q
        | .text s =>
          match parseFloat s with
          | some q => formatTwoDec q
          | none => s

/-- One `<tr>` of `render_grouped_table`; a row is the ordered `(key, value)`
items of the row dict. -/
def render_grouped_row (row : List (String × Option SqlCell)) : String :=
  "<tr>" ++ String.join (row.enum.map
    (fun p => "<td>" ++ render_grouped_cell p.1 p.2.1 p.2.2 ++ "</td>")) ++ "</tr>"

/-- `render_grouped_table(data)` (app.py lines 693-736). -/
def render_grouped_table (data : List (List (String × Option SqlCell))) : String :=
  match data with
  | [] => "<p>暂无数据</p>"
  | hd :: _ =>
    "<div class=\"table-container\"><table class=\"data-table\"><thead><tr>"
      ++ String.join (hd.map (fun p => "<th>" ++ p.1 ++ "</th>"))
      ++ "</tr></thead><tbody>"
      ++ String.join (data.map render_grouped_row)
      ++ "</tbody></table></div>"

/-! ### Random-column utility (`add_random_column_simple`,
add_column_simple.py lines 11-47) -/

/-- One random draw of the utility: either `random.randint(0, 100)` or
`random.uniform(0.0, 100.0)` (chosen by `random.choice([True, False])`).
The draw stream is a parameter of the model. -/
inductive RandDraw
  | int (n : ℕ)
  | flo (q : ℚ)

/-- A CSV cell as held by the script: original text fields, or an appended
`int` / rounded `float`. -/
inductive CsvCell
  | str (s : String)
  | intv (n : ℕ)
  | flov (q : ℚ)
deriving DecidableEq

/-- Python `round(x, 2)` on the exact value (half-to-even). -/
def pyRound2 (q : ℚ) : ℚ :=
  mkRat (roundHalfEvenInt (q.num * 100) (q.den : ℤ)) 100

/-- The value appended for one data row: `random.randint(0, 100)` as-is, or
`round(random.uniform(0.0, 100.0), 2)`. -/
def drawValue : RandDraw → CsvCell
  | .int n => .intv n
  | .flo q => .flov (pyRound2 q)

/-- `add_random_column_simple` (add_column_simple.py lines 11-47) on parsed
CSV rows: the header row gains the new column name, data row `i` (1-based in
`rows`) gains `drawValue (draws i)`.  An empty file is left unchanged (the
source prints a message and returns). -/
def add_random_column_simple (rows : List (List CsvCell)) (new_column_name : String)
    (draws : ℕ → RandDraw) : List (List CsvCell) :=
  match rows with
  | [] => []
  | hd :: rest =>
    (hd ++ [.str new_column_name]) ::
      rest.enum.map (fun p => p.2 ++ [drawValue (draws (p.1 + 1))])

/-! ### Grouped statistics (`get_grouped_statistics`, app.py lines 570-690)

The SQL query (lines 614-666) is embedded clause by clause over a list of
records.  A record holds the five identifier fields and the cells of the
averaged suffix columns; a cell is `Option SqlCell` (`none` = SQL NULL), so
it can hold literal text as well as a number — the loader's parse-failure
and unsafe-magnitude fallbacks store literal text in suffix cells, and the
`numeric_columns` list is name-based (every suffix column except `模式`,
app.py line 592), so whole TEXT-typed suffix columns reach `AVG` too.
`AVG` coerces non-NULL text with numeric affinity (`sqliteRealValue`
below). -/

/-- One row of the `ModelEvaluation` table as read by the aggregation query:
identifier fields plus the averaged suffix columns (`模式` and the surrogate
key are not among `vals`; the query skips them).  Each cell is SQL NULL or a
stored value — a number, or literal text from the loader's fallbacks or a
TEXT-typed column. -/
structure MRow where
  dataset : String
  version : String
  metric : String
  parameter : String
  mode : String
  vals : List (Option SqlCell)
deriving DecidableEq

/-- SQLite `INSTR(s, c)`: 1-based position of the first occurrence, 0 if
absent. -/
def instr (s : String) (c : Char) : ℕ :=
  match s.toList.findIdx? (fun x => x = c) with
  | some i => i + 1
  | none => 0

/-- SQLite `SUBSTR(s, 1, n)`. -/
def strTake (s : String) (n : ℕ) : String :=
  String.mk (s.toList.take n)

/-- The `CASE` expression computing `dataset_identifier` (app.py lines
623-632): split the dataset field at the earlier of the first `_` / `-`,
at the one that occurs if only one does, else keep the whole value. -/
def dataset_identifier (ds : String) : String :=
  if 0 < instr ds '_' ∧ 0 < instr ds '-' then
    if instr ds '_' < instr ds '-' then strTake ds (instr ds '_' - 1)
    else strTake ds (instr ds '-' - 1)
  else if 0 < instr ds '_' then strTake ds (instr ds '_' - 1)
  else if 0 < instr ds '-' then strTake ds (instr ds '-' - 1)
  else ds

/-- The family key in the words of spec §4.5: split at the earlier of the
first `_` or first `-` (0-based first-occurrence indices), at the one that
occurs if only one delimiter type occurs, the whole value if neither
occurs. -/
def familyKeySpec (ds : String) : String :=
  match ds.toList.findIdx? (fun x => x = '_'), ds.toList.findIdx? (fun x => x = '-') with
  | some i, some j => strTake ds (min i j)
  | some i, none => strTake ds i
  | none, some j => strTake ds j
  | none, none => ds

/-- The `PARTITION BY` key of the window function: (family key, metric). -/
def partitionKeyOf (r : MRow) : String × String :=
  (dataset_identifier r.dataset, r.metric)

/-- The rows of partition `k`. -/
def partitionRows (t : List MRow) (k : String × String) : List MRow :=
  t.filter (fun r => decide (partitionKeyOf r = k))

/-- The distinct partition keys of the table. -/
def distinctKeys (t : List MRow) : List (String × String) :=
  (t.map partitionKeyOf).dedup

/-- SQLite BINARY collation on TEXT: byte order of the UTF-8 encodings,
which is code-point lexicographic order, modelled on the character lists. -/
def strLt (a b : String) : Prop :=
  a.toList < b.toList

/-- Reflexive closure of `strLt`. -/
def strLe (a b : String) : Prop :=
  a.toList ≤ b.toList

instance : DecidableRel strLt := fun a b => by unfold strLt; infer_instance

instance : DecidableRel strLe := fun a b => by unfold strLe; infer_instance

/-- The window's `ORDER BY 数据集, 版本, 评估指标` as a relation on rows
(lexicographic on the triple). -/
def rowOrd (a b : MRow) : Prop :=
  strLt a.dataset b.dataset ∨ (a.dataset = b.dataset ∧
    (strLt a.version b.version ∨ (a.version = b.version ∧ strLe a.metric b.metric)))

instance : DecidableRel rowOrd := fun a b => by unfold rowOrd; infer_instance

/-- A partition sorted for row numbering.  (`ROW_NUMBER` breaks ties between
rows equal under the `ORDER BY` in an unspecified way; the model uses the
stable insertion sort.) -/
def sortPartition (rs : List MRow) : List MRow :=
  List.insertionSort rowOrd rs

/-- The exponent part of SQLite's prefix float parse: consumed only when the
`e` / `E` marker is followed, after an optional sign, by at least one digit;
otherwise it contributes nothing (`"7e"` parses as `7`). -/
def sqliteExpPart : List Char → ℤ
  | c :: r =>
    if c = 'e' || c = 'E' then
      if ((pySign r).2.span Char.isDigit).1.isEmpty then 0
      else if (pySign r).1 then -(digitsVal ((pySign r).2.span Char.isDigit).1 : ℤ)
      else (digitsVal ((pySign r).2.span Char.isDigit).1 : ℤ)
    else 0
  | [] => 0

/-- The numeric-prefix parse underlying SQLite's text-to-REAL conversion, on
the character list after leading whitespace: optional sign, digits with an
optional decimal point, optional exponent; trailing characters are ignored;
no mantissa digit at all yields 0. -/
def sqlitePrefixCore (l : List Char) : ℚ :=
  match ((pySign l).2.span Char.isDigit).2 with
  | '.' :: r =>
    if ((pySign l).2.span Char.isDigit).1.isEmpty ∧ (r.span Char.isDigit).1.isEmpty
    then 0
    else qOfParts (pySign l).1
      (digitsVal (((pySign l).2.span Char.isDigit).1 ++ (r.span Char.isDigit).1))
      (r.span Char.isDigit).1.length
      (sqliteExpPart (r.span Char.isDigit).2)
  | rest =>
    if ((pySign l).2.span Char.isDigit).1.isEmpty then 0
    else qOfParts (pySign l).1 (digitsVal ((pySign l).2.span Char.isDigit).1) 0
      (sqliteExpPart rest)

/-- SQLite's text-to-REAL conversion (`sqlite3AtoF`), which `AVG` applies to
every non-NULL TEXT operand under numeric affinity: the exact value of the
longest numeric prefix, 0 for text with no numeric prefix.  (Deviation: the
model keeps the exact rational where SQLite rounds to a double.) -/
def sqlitePrefixQ (s : String) : ℚ :=
  sqlitePrefixCore (s.toList.dropWhile pyIsSpace)

/-- The REAL value `AVG` accumulates for one non-NULL stored cell: a number
as-is, text via the numeric-affinity conversion. -/
def sqliteRealValue : SqlCell → ℚ
  | .num q => q
  | .text s => sqlitePrefixQ s

/-- SQLite `AVG` of column `j` over a set of rows: NULL values are ignored;
every other value — numbers, and text cells, which numeric affinity coerces
via `sqliteRealValue` (non-numeric text counting as 0) — enters the sum and
the denominator; the average of no non-NULL values is NULL. -/
def avgCol (rs : List MRow) (j : ℕ) : Option ℚ :=
  if (rs.filterMap (fun r => r.vals.getD j none)).isEmpty then none
  else some (((rs.filterMap (fun r => r.vals.getD j none)).map sqliteRealValue).sum
    / ((rs.filterMap (fun r => r.vals.getD j none)).length : ℚ))

/-- The numeric value of an optional cell: `none` for NULL and for text
cells.  (Used only by the spec-worded averaging rule below.) -/
def numCell : Option SqlCell → Option ℚ
  | some (.num q) => some q
  | _ => none

/-- Modelled from the spec's words (§4.5 / the C1 sources): the arithmetic
mean over only the non-null *numeric* values of column `j` in the partition,
NULL when there are none.  The program's `avgCol` differs on text cells,
which SQLite's `AVG` coerces and counts. -/
def avgColSpecNumeric (rs : List MRow) (j : ℕ) : Option ℚ :=
  if (rs.filterMap (fun r => numCell (r.vals.getD j none))).isEmpty then none
  else some ((rs.filterMap (fun r => numCell (r.vals.getD j none))).sum
    / ((rs.filterMap (fun r => numCell (r.vals.getD j none))).length : ℚ))

/-- The `avg_values` record for one partition: one REAL-or-NULL average per
averaged suffix column, as the cell the display row carries. -/
def avgVals (ncols : ℕ) (rs : List MRow) : List (Option SqlCell) :=
  (List.range ncols).map (fun j => Option.map SqlCell.num (avgCol rs j))

/-- Pair the elements of a list with consecutive numbers starting at `n`. -/
def numberFrom : ℕ → List α → List (ℕ × α)
  | _, [] => []
  | n, a :: l => (n, a) :: numberFrom (n + 1) l

/-- The rows of the `dataset_groups` CTE belonging to partition `k`, tagged
with their partition key and `row_num`. -/
def tagSeg (t : List MRow) (k : String × String) : List ((String × String) × ℕ × MRow) :=
  (numberFrom 1 (sortPartition (partitionRows t k))).map (fun p => (k, p))

/-- The final `SELECT` list (app.py lines 656-662) applied to one tagged
`dataset_groups` row: row 1 of a partition carries the family key and the
joined averages, later rows a blank label and NULLs; the other identifier
fields pass through.  (The `LEFT JOIN` on (dataset_identifier, 评估指标)
always finds exactly the partition's `avg_values` record, so it is modelled
by direct lookup.) -/
def projT (ncols : ℕ) (t : List MRow) (x : (String × String) × ℕ × MRow) : MRow :=
  { dataset := if x.2.1 = 1 then x.1.1 else ""
    version := x.2.2.version
    metric := x.2.2.metric
    parameter := x.2.2.parameter
    mode := x.2.2.mode
    vals := if x.2.1 = 1 then avgVals ncols (partitionRows t x.1)
            else List.replicate ncols none }

/-- Lexicographic order on partition keys (`ORDER BY` components 1-2). -/
def keyLT (a b : String × String) : Prop :=
  strLt a.1 b.1 ∨ (a.1 = b.1 ∧ strLt a.2 b.2)

/-- Reflexive lexicographic order on partition keys. -/
def keyLE (a b : String × String) : Prop :=
  strLt a.1 b.1 ∨ (a.1 = b.1 ∧ strLe a.2 b.2)

instance : DecidableRel keyLT := fun a b => by unfold keyLT; infer_instance

instance : DecidableRel keyLE := fun a b => by unfold keyLE; infer_instance

/-- The final `ORDER BY d.dataset_identifier, d.评估指标, d.row_num` on
tagged rows. -/
def tagLE (x y : (String × String) × ℕ × MRow) : Prop :=
  keyLT x.1 y.1 ∨ (x.1 = y.1 ∧ x.2.1 ≤ y.2.1)

/-- Strict version of `tagLE` (the sort key (partition key, row number) is
distinct across all tagged rows). -/
def tagLT (x y : (String × String) × ℕ × MRow) : Prop :=
  keyLT x.1 y.1 ∨ (x.1 = y.1 ∧ x.2.1 < y.2.1)

instance : DecidableRel tagLE := fun a b => by unfold tagLE; infer_instance

instance : DecidableRel tagLT := fun a b => by unfold tagLT; infer_instance

/-- `get_grouped_statistics` (app.py lines 570-690) over a table with
`ncols` numeric suffix columns: with no numeric columns the function returns
`[]` before issuing the query (line 610); otherwise the query builds every
tagged `dataset_groups` row, orders them by (dataset_identifier, 评估指标,
row_num) and projects the `SELECT` list. -/
def get_grouped_statistics (ncols : ℕ) (t : List MRow) : List MRow :=
  if ncols = 0 then []
  else (List.insertionSort tagLE ((distinctKeys t).flatMap (tagSeg t))).map (projT ncols t)

/-- A continuation row of spec §4.5: blank dataset label, NULL averaged
columns, other fields passed through. -/
def blankRow (ncols : ℕ) (r : MRow) : MRow :=
  { dataset := "", version := r.version, metric := r.metric,
    parameter := r.parameter, mode := r.mode,
    vals := List.replicate ncols none }

/-- Spec §4.5 display of one partition: only the first row shows the family
key and the computed averages; every other row is a continuation row. -/
def collapseGroup (k : String × String) (avgs : List (Option SqlCell)) (ncols : ℕ) :
    List MRow → List MRow
  | [] => []
  | r :: rest =>
    { dataset := k.1, version := r.version, metric := r.metric,
      parameter := r.parameter, mode := r.mode, vals := avgs }
      :: rest.map (blankRow ncols)

/-- The aggregator in the words of spec §4.5, with the per-partition
aggregates taken to be the SQLite `AVG` values (`avgCol`): partition rows by
(family key, metric); within a partition sort by (dataset, version, metric);
show the family key and the aggregates on the first row only; emit the
partitions in lexicographic key order. -/
def aggregatorSpec (ncols : ℕ) (t : List MRow) : List MRow :=
  (List.insertionSort keyLE (distinctKeys t)).flatMap (fun k =>
    collapseGroup k (avgVals ncols (partitionRows t k)) ncols
      (sortPartition (partitionRows t k)))

/-! ### Concrete instances used by witnesses and counterexamples -/

/-- A table row with no numeric suffix columns. -/
def rowNoCols : MRow :=
  { dataset := "cifar_10", version := "v1", metric := "acc",
    parameter := "p1", mode := "train", vals := [] }

/-- Another table row with no numeric suffix columns. -/
def rowNoCols2 : MRow :=
  { dataset := "mnist-raw", version := "v2", metric := "f1",
    parameter := "p2", mode := "test", vals := [] }

/-- A table row with one numeric suffix cell. -/
def rowOneCol : MRow :=
  { dataset := "setA_1", version := "v1", metric := "acc",
    parameter := "p1", mode := "train", vals := [some (SqlCell.num 80)] }

/-- A second row of the same family with one numeric suffix cell. -/
def rowOneCol2 : MRow :=
  { dataset := "setA_2", version := "v1", metric := "acc",
    parameter := "p1", mode := "train", vals := [some (SqlCell.num 90)] }

/-- A table row whose single suffix cell holds non-numeric literal text, as
the loader's parse-failure fallback stores it. -/
def rowTextCell : MRow :=
  { dataset := "setB_1", version := "v1", metric := "acc",
    parameter := "p1", mode := "train", vals := [some (SqlCell.text ("hello"))] }

/-- Another one-text-cell table row, for the aggregation-shape claim. -/
def rowTextCell2 : MRow :=
  { dataset := "setC-1", version := "v1", metric := "f1",
    parameter := "p2", mode := "test", vals := [some (SqlCell.text ("abc"))] }

/-- A draw stream that always yields `random.randint(0, 100) = 50`. -/
def constDraw : ℕ → RandDraw := fun _ => .int 50

/-! ## Theorems -/

/-! ### C3 / C4 / C5: type inference -/

/-- Counts the samples the source's loop counts as numeric: non-blank and
parseable. -/
lemma scanSamples_no_exp_no_dot (l : List String)
    (h : ∀ v ∈ l, containsChar v '.' = false ∧ containsExp v = false) :
    ∀ n d sc, scanSamples l n d sc =
      some (n + l.countP (fun v => !pyBlank v && (parseFloat v).isSome), d, sc) := by
  induction l with
  | nil => intro n d sc; simp [scanSamples]
  | cons v rest ih =>
    intro n d sc
    have hv := h v (List.mem_cons_self v rest)
    have hrest := fun w hw => h w (List.mem_cons_of_mem v hw)
    unfold scanSamples
    by_cases hb : pyBlank v
    · have hc : List.countP (fun v => !pyBlank v && (parseFloat v).isSome) (v :: rest)
          = List.countP (fun v => !pyBlank v && (parseFloat v).isSome) rest := by
        simp [List.countP_cons, hb]
      rw [if_pos hb, hc]
      exact ih hrest n d sc
    · rw [if_neg hb, if_neg (by simp [hv.2])]
      cases hp : parseFloat v with
      | some q =>
        have hc : List.countP (fun v => !pyBlank v && (parseFloat v).isSome) (v :: rest)
            = List.countP (fun v => !pyBlank v && (parseFloat v).isSome) rest + 1 := by
          simp [List.countP_cons, hb, hp]
        show scanSamples rest (n + 1) (if containsChar v '.' = true then d + 1 else d) sc = _
        rw [hv.1, if_neg (by simp), hc, ih hrest (n + 1) d sc]
        simp only [Option.some.injEq, Prod.mk.injEq]
        exact ⟨by omega, trivial⟩
      | none =>
        show scanSamples rest n d sc = _
        have hc : List.countP (fun v => !pyBlank v && (parseFloat v).isSome) (v :: rest)
            = List.countP (fun v => !pyBlank v && (parseFloat v).isSome) rest := by
          simp [List.countP_cons, hp]
        rw [hc]
        exact ih hrest n d sc

/-- C3 (counterexample): in `["1", ""]` the values that parse as numbers
(one) exceed 80% of the non-blank samples (one), and no sample contains a
decimal point or exponent, yet `infer_data_type` returns TEXT, not INTEGER —
the source compares the numeric count against 80% of *all* samples
(`len(sample_values) * 0.8`), blanks included. -/
theorem infer_nonblank_majority_counterexample :
    List.countP (fun v => !pyBlank v && (parseFloat v).isSome) ["1", ""] = 1 ∧
    List.countP (fun v => !pyBlank v) ["1", ""] = 1 ∧
    (5 * 1 > 4 * 1) ∧
    List.all ["1", ""] (fun v => !containsChar v '.' && !containsExp v) = true ∧
    infer_data_type ["1", ""] = "TEXT" ∧
    infer_data_type ["1", ""] ≠ "INTEGER" := by
  decide

/-- C3 (amended): for every sample list in which the values that parse as
numbers exceed 80% of the *total* number of samples (blanks included), and no
sample contains a decimal point or exponential notation, `infer_data_type`
returns INTEGER. -/
theorem infer_integer_of_numeric_majority (samples : List String)
    (hmaj : 5 * List.countP (fun v => !pyBlank v && (parseFloat v).isSome) samples
      > 4 * samples.length)
    (hplain : ∀ v ∈ samples, containsChar v '.' = false ∧ containsExp v = false) :
    infer_data_type samples = "INTEGER" := by
  have hne : samples.isEmpty = false := by
    cases samples with
    | nil => simp at hmaj
    | cons a l => rfl
  unfold infer_data_type
  rw [hne, if_neg (by simp), scanSamples_no_exp_no_dot samples hplain 0 0 0]
  simp only [Nat.zero_add]
  rw [if_pos hmaj]
  simp

/-- Witness for C3's amended theorem at the sample list `["1", "2"]`. -/
theorem infer_integer_of_numeric_majority_witness :
    infer_data_type ["1", "2"] = "INTEGER" :=
  infer_integer_of_numeric_majority ["1", "2"] (by decide) (by decide)

/-- C4 (code bug): a non-empty all-blank sample list makes every date-pattern
check vacuously true (`all(...)` over an empty generator), so
`infer_data_type` returns DATETIME; only the empty list returns TEXT.  The
spec (and the source's own closing comment `默认返回TEXT`) intend TEXT for
all-blank samples. -/
theorem infer_all_blank_returns_datetime :
    infer_data_type [" "] = "DATETIME" ∧
    infer_data_type [""] = "DATETIME" ∧
    infer_data_type [] = "TEXT" := by
  decide

/-- The scan loop hits the early `return 'TEXT'` as soon as it reaches
`"1e400"`, whatever was accumulated before. -/
lemma scanSamples_of_mem_1e400 :
    ∀ (l : List String), "1e400" ∈ l → ∀ n d sc, scanSamples l n d sc = none := by
  intro l
  induction l with
  | nil => intro h; simp at h
  | cons v rest ih =>
    intro h n d sc
    rcases List.mem_cons.mp h with hv | hr
    · subst hv
      show scanSamples ("1e400" :: rest) n d sc = none
      unfold scanSamples
      rw [if_neg (by decide), if_pos (by decide)]
      rw [show parseFloat ("1e400") = some (qOfParts false 1 0 400) from by decide]
      show (if unsafeMagnitude (qOfParts false 1 0 400) then none
            else scanSamples rest (n + 1) d (sc + 1)) = none
      rw [if_pos (by decide)]
    · unfold scanSamples
      by_cases hb : pyBlank v
      · rw [if_pos hb]; exact ih hr n d sc
      · rw [if_neg hb]
        by_cases he : containsExp v
        · rw [if_pos he]
          cases hp : parseFloat v with
          | some q =>
            show (if unsafeMagnitude q then none
                  else scanSamples rest (n + 1) d (sc + 1)) = none
            by_cases hu : unsafeMagnitude q
            · rw [if_pos hu]
            · rw [if_neg hu]; exact ih hr (n + 1) d (sc + 1)
          | none => exact ih hr n d sc
        · rw [if_neg he]
          cases hp : parseFloat v with
          | some q => exact ih hr (n + 1) _ sc
          | none => exact ih hr n d sc

/-- C5: any sample list containing the literal `"1e400"` is typed TEXT — the
overflow check fires when the scan reaches that value, and the only return
the loop can take early is `'TEXT'`. -/
theorem infer_text_of_overflow_sample (samples : List String)
    (h : "1e400" ∈ samples) :
    infer_data_type samples = "TEXT" := by
  have hne : samples.isEmpty = false := by
    cases samples with
    | nil => simp at h
    | cons a l => rfl
  unfold infer_data_type
  rw [hne, if_neg (by simp), scanSamples_of_mem_1e400 samples h 0 0 0]

/-- Witness for C5 at the sample list `["5", "1e400"]`. -/
theorem infer_text_of_overflow_sample_witness :
    infer_data_type ["5", "1e400"] = "TEXT" :=
  infer_text_of_overflow_sample ["5", "1e400"] (by decide)

/-! ### C6: per-field coercion of the loader -/

/-- C6: for every suffix field (position 5 and beyond) the loader stores:
NULL for a blank field; the parsed number for a numeric field that is either
plain or scientific notation of safe magnitude; and the original literal
text when the field is scientific notation of unsafe magnitude or fails to
parse.  The conversion is a total function — a parse failure is absorbed
into the text fallback and never escapes. -/
theorem import_field_value_coercion_cases (i : ℕ) (v : String) (h5 : 5 ≤ i) :
    (pyBlank v = true → import_field_value i v = none) ∧
    (pyBlank v = false → parseFloat v = none →
      import_field_value i v = some (.text v)) ∧
    (∀ q, pyBlank v = false → parseFloat v = some q → containsExp v = true →
      unsafeMagnitude q → import_field_value i v = some (.text v)) ∧
    (∀ q, pyBlank v = false → parseFloat v = some q → containsExp v = true →
      ¬ unsafeMagnitude q → import_field_value i v = some (.num q)) ∧
    (∀ q, pyBlank v = false → parseFloat v = some q → containsExp v = false →
      import_field_value i v = some (.num q)) := by
  have hi : ¬ i < 5 := by omega
  refine ⟨?_, ?_, ?_, ?_, ?_⟩
  · intro hb; unfold import_field_value; rw [if_pos hb]
  · intro hb hp
    unfold import_field_value
    rw [if_neg (by simp [hb]), if_neg hi]
    by_cases he : containsExp v
    · rw [if_pos he, hp]
    · rw [if_neg he, hp]
  · intro q hb hp he hu
    unfold import_field_value
    rw [if_neg (by simp [hb]), if_neg hi, if_pos he, hp]
    show (if unsafeMagnitude q then some (SqlCell.text v) else some (SqlCell.num q)) = _
    rw [if_pos hu]
  · intro q hb hp he hu
    unfold import_field_value
    rw [if_neg (by simp [hb]), if_neg hi, if_pos he, hp]
    show (if unsafeMagnitude q then some (SqlCell.text v) else some (SqlCell.num q)) = _
    rw [if_neg hu]
  · intro q hb hp he
    unfold import_field_value
    rw [if_neg (by simp [hb]), if_neg hi, if_neg (by simp [he]), hp]

/-- Witness for C6 at field position 5 with values `"1.5"`, `""`, `"1e400"`
and `"abc"`. -/
theorem import_field_value_coercion_witness :
    import_field_value 5 ("1.5") = some (SqlCell.num (mkRat 3 2)) ∧
    import_field_value 5 ("") = none ∧
    import_field_value 5 ("1e400") = some (SqlCell.text "1e400") ∧
    import_field_value 5 ("abc") = some (SqlCell.text "abc") :=
  ⟨((import_field_value_coercion_cases 5 "1.5" (by decide)).2.2.2.2) (mkRat 3 2)
      (by decide) (by decide) (by decide),
   (import_field_value_coercion_cases 5 "" (by decide)).1 (by decide),
   ((import_field_value_coercion_cases 5 "1e400" (by decide)).2.2.1)
      (qOfParts false 1 0 400) (by decide) (by decide) (by decide) (by decide),
   (import_field_value_coercion_cases 5 "abc" (by decide)).2.1 (by decide) (by decide)⟩

/-! ### C8: emitted table definition -/

/-- C8 (counterexample): a suffix column whose samples look like dates is
inferred DATETIME, yet the emitted definition declares it `DECIMAL(10, 4)` —
`generate_sql_table` only maps TEXT and INTEGER through and defaults every
other inferred type to `DECIMAL(10, 4)`. -/
theorem column_definitions_datetime_counterexample :
    infer_data_type (colSamples [["a", "b", "c", "d", "e", "2024-01-02"]] 5) = "DATETIME" ∧
    column_definitions ["dataset", "version", "metric", "parameter", "mode", "day"]
        [["a", "b", "c", "d", "e", "2024-01-02"]] 10
      = fixedColumnDefs ++ ["    \"day\" DECIMAL(10, 4)"] ∧
    ("    \"day\" DECIMAL(10, 4)" : String) ≠ "    \"day\" DATETIME" := by
  decide

/-- C8 (amended): after the surrogate key and the five fixed identifier
columns, the emitted statement has exactly one nullable column per suffix
column, declared with the inferred type when that is TEXT or INTEGER and
with `DECIMAL(10, 4)` for any other inferred type (DECIMAL or DATETIME). -/
theorem column_definitions_suffix_types (headers : List String)
    (rows : List (List String)) (sample_rows : ℕ) (i : ℕ)
    (h5 : 5 ≤ i) (hi : i < headers.length) :
    (column_definitions headers rows sample_rows).length = 6 + (headers.length - 5) ∧
    (column_definitions headers rows sample_rows).getD (i + 1) "" =
      "    \"" ++ clean_column_name (headers.getD i "") true ++ "\" " ++
        (if infer_data_type (colSamples (rows.take sample_rows) i) = "TEXT" then "TEXT"
         else if infer_data_type (colSamples (rows.take sample_rows) i) = "INTEGER" then "INTEGER"
         else "DECIMAL(10, 4)") := by
  have hlen : (analyze_csv_structure headers rows sample_rows).length = headers.length := by
    simp [analyze_csv_structure]
  have h5len : 5 < (analyze_csv_structure headers rows sample_rows).length := by omega
  constructor
  · unfold column_definitions
    rw [if_pos h5len]
    simp [fixedColumnDefs, hlen]
    omega
  · have hci : (analyze_csv_structure headers rows sample_rows).getD i default =
        { original_name := headers.getD i ""
          clean_name := clean_column_name (headers.getD i "") (decide (5 ≤ i))
          data_type := infer_data_type (colSamples (rows.take sample_rows) i)
          index := i } := by
      unfold analyze_csv_structure
      rw [List.getD_eq_getElem?_getD, List.getElem?_map]
      rw [List.getElem?_eq_getElem (by simpa using hi)]
      simp [List.getElem_range]
    unfold column_definitions
    rw [if_pos h5len]
    rw [List.getD_eq_getElem?_getD,
        List.getElem?_append_right (by simp [fixedColumnDefs]; omega)]
    have hfix : fixedColumnDefs.length = 6 := by decide
    rw [hfix, List.getElem?_map]
    have hk : i + 1 - 6 < (List.range' 5 ((analyze_csv_structure headers rows sample_rows).length - 5)).length := by
      rw [List.length_range']
      omega
    rw [List.getElem?_eq_getElem hk]
    have hval : (List.range' 5 ((analyze_csv_structure headers rows sample_rows).length - 5))[i + 1 - 6] = i := by
      rw [List.getElem_range']
      omega
    rw [hval]
    simp only [Option.map_some', Option.getD_some]
    rw [hci]
    have hd : decide (5 ≤ i) = true := decide_eq_true h5
    unfold suffixColumnDef
    simp only [hd]
    split
    · next h =>
      simp only [String.append_assoc]
      rw [show (("\" " : String) ++ "TEXT") = "\" TEXT" from rfl]
    · next h =>
      split
      · next h2 =>
        simp only [String.append_assoc]
        rw [show (("\" " : String) ++ "INTEGER") = "\" INTEGER" from rfl]
      · next h2 =>
        simp only [String.append_assoc]
        rw [show (("\" " : String) ++ "DECIMAL(10, 4)") = "\" DECIMAL(10, 4)" from rfl]

/-- Witness for C8's amended theorem at a six-column header with a date-valued
suffix column, position `i = 5`. -/
theorem column_definitions_suffix_types_witness :
    (column_definitions ["dataset", "version", "metric", "parameter", "mode", "day"]
        [["a", "b", "c", "d", "e", "2024-01-02"]] 10).length = 6 + (6 - 5) ∧
    (column_definitions ["dataset", "version", "metric", "parameter", "mode", "day"]
        [["a", "b", "c", "d", "e", "2024-01-02"]] 10).getD (5 + 1) "" =
      "    \"" ++ clean_column_name ((["dataset", "version", "metric", "parameter",
          "mode", "day"] : List String).getD 5 "") true ++ "\" " ++
        (if infer_data_type (colSamples ([["a", "b", "c", "d", "e",
              "2024-01-02"]].take 10) 5) = "TEXT" then "TEXT"
         else if infer_data_type (colSamples ([["a", "b", "c", "d", "e",
              "2024-01-02"]].take 10) 5) = "INTEGER" then "INTEGER"
         else "DECIMAL(10, 4)") :=
  column_definitions_suffix_types ["dataset", "version", "metric", "parameter", "mode", "day"]
    [["a", "b", "c", "d", "e", "2024-01-02"]] 10 5 (by decide) (by decide)

/-! ### C9: rendering rules -/

/-- C9 (counterexample): in the grouped display table (the one the page
renders), a present metric value whose literal form has three decimals is
reformatted to exactly two decimals rather than left as-is; and in
`render_table` a NULL metric cell renders as the string `None`, not as the
empty string. -/
theorem rendering_rules_counterexample :
    render_grouped_cell 5 ("score") (some (SqlCell.text "1.234")) = "1.23" ∧
    decimalsAfterDot ("1.234") = 3 ∧
    ("1.23" : String) ≠ "1.234" ∧
    render_table_cell 6 none = "None" ∧
    ("None" : String) ≠ "" := by
  decide

/-- C9 (amended): in `render_grouped_table` every present value of a
non-identifier column is rendered with exactly two decimal digits whenever
`float()` accepts it (regardless of how many decimals its literal form has),
NULL renders as the empty string, and a non-numeric present value renders as
its literal string form; in `render_table` a present metric value with fewer
than two decimals is padded to exactly two, one with two or more decimals is
left as-is, a non-numeric present value renders unchanged, and NULL renders
as the string `None`.  Both formatters are total functions — no exception
escapes. -/
theorem rendering_rules (i : ℕ) (key : String) (s : String) (q : ℚ) :
    (render_grouped_cell i key none = "") ∧
    (i ≠ 0 → identifierKeys.contains key = false →
      render_grouped_cell i key (some (SqlCell.num q)) = formatTwoDec q) ∧
    (i ≠ 0 → identifierKeys.contains key = false → parseFloat s = some q →
      render_grouped_cell i key (some (SqlCell.text s)) = formatTwoDec q) ∧
    (i ≠ 0 → identifierKeys.contains key = false → parseFloat s = none →
      render_grouped_cell i key (some (SqlCell.text s)) = s) ∧
    (render_table_cell i none = "None") ∧
    (5 < i → parseFloat s = none → render_table_cell i (some s) = s) ∧
    (5 < i → parseFloat s = some q → containsChar s '.' = true →
      2 ≤ decimalsAfterDot s → render_table_cell i (some s) = s) ∧
    (5 < i → parseFloat s = some q →
      containsChar s '.' = false ∨ decimalsAfterDot s < 2 →
      render_table_cell i (some s) = formatTwoDec q) := by
  refine ⟨?_, ?_, ?_, ?_, ?_, ?_, ?_, ?_⟩
  · unfold render_grouped_cell
    by_cases h0 : i = 0
    · rw [if_pos h0]
    · rw [if_neg h0]
  · intro h0 hk
    unfold render_grouped_cell
    rw [if_neg h0]
    show (if identifierKeys.contains key = true then _ else _) = _
    rw [if_neg (by rw [hk]; simp)]
  · intro h0 hk hp
    unfold render_grouped_cell
    rw [if_neg h0]
    show (if identifierKeys.contains key = true then _ else _) = _
    rw [if_neg (by rw [hk]; simp)]
    show (match parseFloat s with
          | some q => formatTwoDec q
          | none => s) = _
    rw [hp]
  · intro h0 hk hp
    unfold render_grouped_cell
    rw [if_neg h0]
    show (if identifierKeys.contains key = true then _ else _) = _
    rw [if_neg (by rw [hk]; simp)]
    show (match parseFloat s with
          | some q => formatTwoDec q
          | none => s) = _
    rw [hp]
  · unfold render_table_cell
    rfl
  · intro h5 hp
    unfold render_table_cell
    show (if 5 < i then
            match parseFloat s with
            | some q =>
              if containsChar s '.' = true then
                (if decimalsAfterDot s < 2 then formatTwoDec q else s)
              else formatTwoDec q
            | none => s
          else s) = s
    rw [if_pos h5, hp]
  · intro h5 hp hdot hd
    unfold render_table_cell
    show (if 5 < i then
            match parseFloat s with
            | some q =>
              if containsChar s '.' = true then
                (if decimalsAfterDot s < 2 then formatTwoDec q else s)
              else formatTwoDec q
            | none => s
          else s) = s
    rw [if_pos h5, hp]
    show (if containsChar s '.' = true then
            (if decimalsAfterDot s < 2 then formatTwoDec q else s)
          else formatTwoDec q) = s
    rw [if_pos hdot, if_neg (by omega)]
  · intro h5 hp hcase
    unfold render_table_cell
    show (if 5 < i then
            match parseFloat s with
            | some q =>
              if containsChar s '.' = true then
                (if decimalsAfterDot s < 2 then formatTwoDec q else s)
              else formatTwoDec q
            | none => s
          else s) = formatTwoDec q
    rw [if_pos h5, hp]
    show (if containsChar s '.' = true then
            (if decimalsAfterDot s < 2 then formatTwoDec q else s)
          else formatTwoDec q) = formatTwoDec q
    rcases hcase with hdot | hd
    · rw [if_neg (by rw [hdot]; simp)]
    · by_cases hdot : containsChar s '.'
      · rw [if_pos hdot, if_pos hd]
      · rw [if_neg hdot]

/-- Witness for C9's amended theorem: a NULL grouped cell, a numeric average,
and a padded `render_table` value. -/
theorem rendering_rules_witness :
    render_grouped_cell 6 ("score") none = "" ∧
    render_grouped_cell 6 ("score") (some (SqlCell.num (mkRat 85 1))) = formatTwoDec (mkRat 85 1) ∧
    render_table_cell 6 (some ("87.5")) = formatTwoDec (mkRat 175 2) :=
  ⟨(rendering_rules 6 ("score") ("87.5") (mkRat 175 2)).1,
   (rendering_rules 6 ("score") ("87.5") (mkRat 85 1)).2.1 (by decide) (by decide),
   (rendering_rules 6 ("score") ("87.5") (mkRat 175 2)).2.2.2.2.2.2.2
     (by decide) (by decide) (Or.inr (by decide))⟩

/-! ### C10: random-column utility -/

/-- Bounding round-half-even: if `lo·d ≤ m ≤ hi·d` with `d > 0` then the
rounding of `m / d` lies in `[lo, hi]`. -/
lemma roundHalfEvenInt_bounds {m d lo hi : ℤ} (hd : 0 < d)
    (hlo : lo * d ≤ m) (hhi : m ≤ hi * d) :
    lo ≤ roundHalfEvenInt m d ∧ roundHalfEvenInt m d ≤ hi := by
  have hid := Int.fdiv_add_fmod m d
  have hr0 := Int.fmod_nonneg' m hd
  have hrd := Int.fmod_lt_of_pos m hd
  have hR : m - m.fdiv d * d = m.fmod d := by
    have hc : m.fdiv d * d = d * m.fdiv d := mul_comm _ _
    omega
  have hcomm1 : lo * d = d * lo := mul_comm lo d
  have hcomm2 : hi * d = d * hi := mul_comm hi d
  have hadd : d * (m.fdiv d + 1) = d * m.fdiv d + d := by ring
  have hlof : lo ≤ m.fdiv d := by
    have h1 : d * lo < d * (m.fdiv d + 1) := by omega
    have h2 := lt_of_mul_lt_mul_left h1 (le_of_lt hd)
    omega
  have hfhi : m.fdiv d ≤ hi := by
    have h1 : d * m.fdiv d ≤ d * hi := by omega
    exact le_of_mul_le_mul_left h1 hd
  have hup : 0 < m.fmod d → m.fdiv d < hi := by
    intro h
    have h1 : d * m.fdiv d < d * hi := by omega
    exact lt_of_mul_lt_mul_left h1 (le_of_lt hd)
  unfold roundHalfEvenInt
  rw [hR]
  split
  · exact ⟨hlof, hfhi⟩
  · next h1 =>
    split
    · next h2 =>
      have := hup (by omega)
      exact ⟨by omega, by omega⟩
    · next h2 =>
      split
      · exact ⟨hlof, hfhi⟩
      · have := hup (by omega)
        exact ⟨by omega, by omega⟩

/-- `round(uniform, 2)` stays in `[0, 100]` and is an integer number of
hundredths. -/
lemma pyRound2_mem (q : ℚ) (h0 : 0 ≤ q) (h100 : q ≤ 100) :
    0 ≤ pyRound2 q ∧ pyRound2 q ≤ 100 ∧ ∃ k : ℤ, pyRound2 q = mkRat k 100 := by
  have hdpos : (0 : ℤ) < (q.den : ℤ) := by
    exact_mod_cast q.pos
  have hnum0 : 0 ≤ q.num := Rat.num_nonneg.mpr h0
  have hnum100 : q.num ≤ 100 * (q.den : ℤ) := by
    have h := (Rat.le_def).mp h100
    simpa using h
  have hb := @roundHalfEvenInt_bounds (q.num * 100) ((q.den : ℤ)) 0 10000
    hdpos (by omega) (by omega)
  unfold pyRound2
  refine ⟨?_, ?_, ⟨roundHalfEvenInt (q.num * 100) (q.den : ℤ), rfl⟩⟩
  · rw [Rat.mkRat_eq_div]
    apply div_nonneg
    · exact_mod_cast hb.1
    · norm_num
  · rw [Rat.mkRat_eq_div]
    rw [div_le_iff (by norm_num)]
    calc ((roundHalfEvenInt (q.num * 100) (q.den : ℤ) : ℚ)) ≤ ((10000 : ℤ) : ℚ) := by
          exact_mod_cast hb.2
      _ = 100 * 100 := by norm_num

/-- C10: on a non-empty CSV the utility keeps the number of rows, appends
exactly the new column name to the header row, appends exactly one value to
each data row leaving the existing cells unchanged, and every appended value
is an integer `≤ 100` or a two-decimal rational in `[0, 100]` (given that the
library calls respect their documented ranges, which is expressed as the
hypotheses on the draw stream). -/
theorem add_random_column_shape_and_bounds (rows : List (List CsvCell))
    (name : String) (draws : ℕ → RandDraw) (hrows : rows ≠ [])
    (hint : ∀ i n, draws i = RandDraw.int n → n ≤ 100)
    (hflo : ∀ i q, draws i = RandDraw.flo q → 0 ≤ q ∧ q ≤ 100) :
    (add_random_column_simple rows name draws).length = rows.length ∧
    (add_random_column_simple rows name draws).head? =
      rows.head?.map (fun h => h ++ [CsvCell.str name]) ∧
    (∀ j, 1 ≤ j → j < rows.length →
      (add_random_column_simple rows name draws).getD j [] =
        rows.getD j [] ++ [drawValue (draws j)]) ∧
    (∀ j, 1 ≤ j →
      (∃ n : ℕ, drawValue (draws j) = CsvCell.intv n ∧ n ≤ 100) ∨
      (∃ k : ℤ, drawValue (draws j) = CsvCell.flov (mkRat k 100) ∧
        0 ≤ (mkRat k 100 : ℚ) ∧ (mkRat k 100 : ℚ) ≤ 100)) := by
  cases rows with
  | nil => exact absurd rfl hrows
  | cons hd rest =>
    refine ⟨?_, ?_, ?_, ?_⟩
    · simp [add_random_column_simple]
    · rfl
    · intro j h1 hj
      cases j with
      | zero => omega
      | succ j =>
        show (rest.enum.map (fun p => p.2 ++ [drawValue (draws (p.1 + 1))])).getD j []
            = rest.getD j [] ++ [drawValue (draws (j + 1))]
        have hjr : j < rest.length := by
          simp at hj
          omega
        rw [List.getD_eq_getElem?_getD, List.getElem?_map,
            List.getElem?_enum, List.getElem?_eq_getElem hjr]
        rw [List.getD_eq_getElem?_getD, List.getElem?_eq_getElem hjr]
        rfl
    · intro j h1
      cases hdr : draws j with
      | int n =>
        exact Or.inl ⟨n, rfl, hint j n hdr⟩
      | flo q =>
        obtain ⟨hq0, hq100⟩ := hflo j q hdr
        obtain ⟨ha, hb, k, hk⟩ := pyRound2_mem q hq0 hq100
        refine Or.inr ⟨k, ?_, ?_, ?_⟩
        · show CsvCell.flov (pyRound2 q) = CsvCell.flov (mkRat k 100)
          rw [hk]
        · rw [← hk]; exact ha
        · rw [← hk]; exact hb

/-- Witness for C10 at a two-row CSV with the constant draw
`random.randint(0, 100) = 50`. -/
theorem add_random_column_witness :
    (add_random_column_simple [[CsvCell.str "h1"], [CsvCell.str "1"]] ("rand") constDraw).length = 2 ∧
    (add_random_column_simple [[CsvCell.str "h1"], [CsvCell.str "1"]] ("rand") constDraw).getD 1 []
      = [CsvCell.str "1"] ++ [drawValue (constDraw 1)] :=
  ⟨(add_random_column_shape_and_bounds [[CsvCell.str "h1"], [CsvCell.str "1"]] "rand" constDraw
      (by decide) (fun i n h => by cases h; decide)
      (fun i q h => by cases h)).1,
   (add_random_column_shape_and_bounds [[CsvCell.str "h1"], [CsvCell.str "1"]] "rand" constDraw
      (by decide) (fun i n h => by cases h; decide)
      (fun i q h => by cases h)).2.2.1 1 (by decide) (by decide)⟩

/-! ### C7: idempotence of the column-name normaliser -/

/-- `(String.mk l).toList = l`. -/
lemma toList_mk (l : List Char) : (String.mk l).toList = l := rfl

/-- `String.mk s.toList = s`. -/
lemma mk_toList (s : String) : String.mk s.toList = s := by
  cases s
  rfl

/-- Characters survive `collapseU`. -/
lemma mem_collapseU : ∀ {l : List Char} {c : Char}, c ∈ collapseU l → c ∈ l := by
  intro l
  induction l with
  | nil => intro c h; simpa [collapseU] using h
  | cons x rest ih =>
    intro c h
    rw [collapseU] at h
    split at h
    · exact List.mem_cons_of_mem x (ih h)
    · rcases List.mem_cons.mp h with rfl | h2
      · exact List.mem_cons_self _ _
      · exact List.mem_cons_of_mem x (ih h2)

/-- `collapseU` leaves no two adjacent underscores. -/
lemma chain'_collapseU (l : List Char) :
    List.Chain' (fun a b => ¬(a = '_' ∧ b = '_')) (collapseU l) := by
  induction l with
  | nil => simp [collapseU]
  | cons x rest ih =>
    rw [collapseU]
    split
    · exact ih
    · next hcond =>
      refine List.Chain'.cons' ih ?_
      intro y hy
      intro hxy
      exact hcond ⟨hxy.1, by rw [← hxy.2]; exact hy⟩

/-- `collapseU` is the identity on lists with no two adjacent underscores. -/
lemma collapseU_eq_self :
    ∀ {l : List Char}, List.Chain' (fun a b => ¬(a = '_' ∧ b = '_')) l →
      collapseU l = l := by
  intro l
  induction l with
  | nil => intro _; rfl
  | cons x rest ih =>
    intro h
    have hcr : collapseU rest = rest := ih h.tail
    rw [collapseU, hcr]
    split
    · next hc =>
      exfalso
      cases rest with
      | nil => simp at hc
      | cons y t =>
        have hy : y = '_' := by simpa using hc.2
        exact (List.chain'_cons.mp h).1 ⟨hc.1, hy⟩
    · rfl

/-- `dropWhile` preserves `Chain'`. -/
lemma chain'_dropWhile {R : Char → Char → Prop} (p : Char → Bool) :
    ∀ {l : List Char}, List.Chain' R l → List.Chain' R (l.dropWhile p) := by
  intro l
  induction l with
  | nil => intro h; simpa using h
  | cons x rest ih =>
    intro h
    rw [List.dropWhile_cons]
    split
    · exact ih h.tail
    · exact h

/-- The head of `dropWhile p` fails `p`. -/
lemma head?_dropWhile_false (p : Char → Bool) :
    ∀ (l : List Char) {c : Char}, (l.dropWhile p).head? = some c → p c = false := by
  intro l
  induction l with
  | nil => intro c h; simp at h
  | cons x rest ih =>
    intro c h
    rw [List.dropWhile_cons] at h
    split at h
    · exact ih h
    · next hx =>
      have hcx : c = x := by simpa using h.symm
      subst hcx
      exact Bool.eq_false_iff.mpr hx

/-- A last element of `dropWhile p` is a last element of the list. -/
lemma getLast?_dropWhile (p : Char → Bool) (l : List Char) {c : Char}
    (h : (l.dropWhile p).getLast? = some c) : l.getLast? = some c := by
  obtain ⟨pre, hpre⟩ := List.dropWhile_suffix (l := l) p
  rw [← hpre, List.getLast?_append, h]
  rfl

/-- Heads after `stripU` are not underscores. -/
lemma stripU_head?_ne {l : List Char} {c : Char}
    (h : (stripU l).head? = some c) : c ≠ '_' := by
  unfold stripU at h
  rw [List.head?_reverse] at h
  have h2 := getLast?_dropWhile _ _ h
  rw [List.getLast?_reverse] at h2
  have h3 := head?_dropWhile_false _ _ h2
  simpa using h3

/-- Last elements after `stripU` are not underscores. -/
lemma stripU_getLast?_ne {l : List Char} {c : Char}
    (h : (stripU l).getLast? = some c) : c ≠ '_' := by
  unfold stripU at h
  rw [List.getLast?_reverse] at h
  have h3 := head?_dropWhile_false _ _ h
  simpa using h3

/-- Characters survive `stripU`. -/
lemma mem_stripU {l : List Char} {c : Char} (h : c ∈ stripU l) : c ∈ l := by
  unfold stripU at h
  rw [List.mem_reverse] at h
  have h2 := (List.dropWhile_suffix _).subset h
  rw [List.mem_reverse] at h2
  exact (List.dropWhile_suffix _).subset h2

/-- `stripU` preserves `Chain'` for a symmetric relation. -/
lemma chain'_stripU {R : Char → Char → Prop} (hsym : ∀ {a b : Char}, R a b → R b a)
    {l : List Char} (h : List.Chain' R l) : List.Chain' R (stripU l) := by
  unfold stripU
  have h1 : List.Chain' R (l.dropWhile (fun c => decide (c = '_'))) :=
    chain'_dropWhile _ h
  have h2 : List.Chain' R ((l.dropWhile (fun c => decide (c = '_'))).reverse) := by
    rw [List.chain'_reverse]
    exact h1.imp (fun a b hab => hsym hab)
  have h3 := chain'_dropWhile (R := R) (fun c => decide (c = '_')) h2
  rw [List.chain'_reverse]
  exact h3.imp (fun a b hab => hsym hab)

/-- `dropWhile` is the identity when the head fails the predicate. -/
lemma dropWhile_eq_self_of_head (p : Char → Bool) (l : List Char)
    (h : ∀ c, l.head? = some c → p c = false) : l.dropWhile p = l := by
  cases l with
  | nil => rfl
  | cons x rest =>
    rw [List.dropWhile_cons, if_neg]
    simp [h x rfl]

/-- `stripU` is the identity when neither end is an underscore. -/
lemma stripU_eq_self {l : List Char}
    (h1 : ∀ c, l.head? = some c → c ≠ '_')
    (h2 : ∀ c, l.getLast? = some c → c ≠ '_') :
    stripU l = l := by
  unfold stripU
  rw [dropWhile_eq_self_of_head _ l (fun c hc => by simp [h1 c hc])]
  rw [dropWhile_eq_self_of_head _ l.reverse (fun c hc => by
    rw [List.head?_reverse] at hc
    simp [h2 c hc])]
  exact List.reverse_reverse l

/-- The lookup table holds no uppercase characters and only word
characters. -/
lemma lowerChars_props :
    ∀ i, i < 26 → isUpperAscii (lowerChars.getD i 'a') = false ∧
      isAsciiWordChar (lowerChars.getD i 'a') = true := by
  decide

/-- `lowerChars.getD i` does not depend on the default in range. -/
lemma lowerChars_getD_eq (i : ℕ) (hi : i < 26) (c : Char) :
    lowerChars.getD i c = lowerChars.getD i 'a' := by
  have hlen : i < lowerChars.length := by simp [lowerChars]; omega
  rw [List.getD_eq_getElem _ _ hlen, List.getD_eq_getElem _ _ hlen]

/-- `str.lower()` is idempotent character-wise. -/
lemma asciiLower_idem (c : Char) : asciiLower (asciiLower c) = asciiLower c := by
  unfold asciiLower
  by_cases h : isUpperAscii c = true
  · rw [if_pos h]
    by_cases hi : c.toNat - 65 < 26
    · rw [lowerChars_getD_eq _ hi]
      have hup := (lowerChars_props _ hi).1
      rw [if_neg (by rw [hup]; simp)]
    · have hd : lowerChars.getD (c.toNat - 65) c = c :=
        List.getD_eq_default _ _ (by simp [lowerChars]; omega)
      rw [hd, if_pos h, hd]
  · rw [if_neg h, if_neg h]

/-- `str.lower()` keeps word characters word characters. -/
lemma allowed_asciiLower {c : Char} (hc : isAsciiWordChar c = true) :
    isAsciiWordChar (asciiLower c) = true := by
  unfold asciiLower
  by_cases h : isUpperAscii c = true
  · rw [if_pos h]
    by_cases hi : c.toNat - 65 < 26
    · rw [lowerChars_getD_eq _ hi]
      exact (lowerChars_props _ hi).2
    · rw [List.getD_eq_default _ _ (by simp [lowerChars]; omega)]
      exact hc
  · rw [if_neg h]
    exact hc

/-- The underscore is kept by both replacement modes. -/
lemma allowed_underscore (p : Bool) : allowedChar p '_' = true := by
  cases p <;> decide

/-- Every character of a normalised name is in the kept character class. -/
lemma clean_chars_allowed (name : String) (p : Bool) :
    ∀ c ∈ (clean_column_name name p).toList, allowedChar p c = true := by
  intro c hc
  rw [clean_column_name, toList_mk] at hc
  have hc2 := mem_collapseU (mem_stripU hc)
  have hpre : ∀ x ∈ prefixDigit (replaceDisallowed p name.toList),
      allowedChar p x = true := by
    intro x hx
    have hrep : ∀ y ∈ replaceDisallowed p name.toList, allowedChar p y = true := by
      intro y hy
      rw [replaceDisallowed] at hy
      obtain ⟨z, _, hz⟩ := List.mem_map.mp hy
      by_cases ha : allowedChar p z = true
      · rw [if_pos ha] at hz; rw [← hz]; exact ha
      · rw [if_neg ha] at hz; rw [← hz]; exact allowed_underscore p
    rw [prefixDigit] at hx
    split at hx
    · simp only [List.mem_cons] at hx
      rcases hx with rfl | rfl | rfl | rfl | hx
      · exact by cases p <;> decide
      · exact by cases p <;> decide
      · exact by cases p <;> decide
      · exact allowed_underscore p
      · exact hrep _ (by simpa using hx)
    · exact hrep _ hx
  rw [lowerStep] at hc2
  split at hc2
  · exact hpre c hc2
  · obtain ⟨z, hz, hez⟩ := List.mem_map.mp hc2
    rw [← hez]
    cases p with
    | false => exact allowed_asciiLower (by simpa using hpre z hz)
    | true => simp at *

/-- In non-preserve mode every character of a normalised name is already
lowercased. -/
lemma clean_chars_lowered (name : String) :
    ∀ c ∈ (clean_column_name name false).toList, asciiLower c = c := by
  intro c hc
  rw [clean_column_name, toList_mk] at hc
  have hc2 := mem_collapseU (mem_stripU hc)
  obtain ⟨z, hz, hez⟩ := List.mem_map.mp
    (show c ∈ (prefixDigit (replaceDisallowed false name.toList)).map asciiLower from hc2)
  rw [← hez]
  exact asciiLower_idem z

/-- A normalised name has no two adjacent underscores. -/
lemma clean_chain (name : String) (p : Bool) :
    List.Chain' (fun a b => ¬(a = '_' ∧ b = '_')) (clean_column_name name p).toList := by
  rw [clean_column_name, toList_mk]
  exact chain'_stripU (fun {a b} hab h => hab ⟨h.2, h.1⟩) (chain'_collapseU _)

/-- C7 (counterexample): normalising `"_9"` strips the leading underscore and
exposes the digit, so a second normalisation prepends `col_`:
`normalize(normalize("_9")) = "col_9" ≠ "9" = normalize("_9")`. -/
theorem clean_column_name_not_idempotent :
    clean_column_name ("_9") false = "9" ∧
    clean_column_name (clean_column_name ("_9") false) false = "col_9" ∧
    clean_column_name (clean_column_name ("_9") false) false ≠
      clean_column_name ("_9") false := by
  decide

/-- C7 (amended): the normaliser is idempotent on every header whose
normalised form does not start with a digit (stripping underscores can expose
a leading digit, in which case the second pass prepends `col_`); this holds
in both script-preservation modes. -/
theorem clean_column_name_idem_unless_digit_exposed (name : String) (p : Bool)
    (hdig : digitHead (clean_column_name name p).toList = false) :
    clean_column_name (clean_column_name name p) p = clean_column_name name p := by
  have hall := clean_chars_allowed name p
  have h1 : replaceDisallowed p (clean_column_name name p).toList
      = (clean_column_name name p).toList := by
    unfold replaceDisallowed
    have hcong : ∀ c ∈ (clean_column_name name p).toList,
        (if allowedChar p c then c else '_') = id c := by
      intro c hc
      rw [if_pos (hall c hc)]
      rfl
    rw [List.map_congr_left hcong, List.map_id]
  have h2 : prefixDigit (clean_column_name name p).toList
      = (clean_column_name name p).toList := by
    unfold prefixDigit
    have hdig2 : digitHead (clean_column_name name p).data = false := hdig
    rw [if_neg (by simp [hdig2])]
  have h3 : lowerStep p (clean_column_name name p).toList
      = (clean_column_name name p).toList := by
    cases p with
    | true => rfl
    | false =>
      show ((clean_column_name name false).toList).map asciiLower
          = (clean_column_name name false).toList
      have hcong : ∀ c ∈ (clean_column_name name false).toList,
          asciiLower c = id c := fun c hc => clean_chars_lowered name c hc
      rw [List.map_congr_left hcong, List.map_id]
  have h4 : collapseU (clean_column_name name p).toList
      = (clean_column_name name p).toList :=
    collapseU_eq_self (clean_chain name p)
  have h5 : stripU (clean_column_name name p).toList
      = (clean_column_name name p).toList := by
    apply stripU_eq_self
    · intro c hc
      exact stripU_head?_ne (l := collapseU (lowerStep p (prefixDigit
        (replaceDisallowed p name.toList)))) hc
    · intro c hc
      exact stripU_getLast?_ne (l := collapseU (lowerStep p (prefixDigit
        (replaceDisallowed p name.toList)))) hc
  show String.mk (stripU (collapseU (lowerStep p (prefixDigit (replaceDisallowed p
      (clean_column_name name p).toList))))) = clean_column_name name p
  rw [h1, h2, h3, h4, h5, mk_toList]

/-- Witness for C7's amended theorem at the header `"AB_c9"` in non-preserve
mode. -/
theorem clean_column_name_idem_witness :
    clean_column_name (clean_column_name ("AB_c9") false) false
      = clean_column_name ("AB_c9") false :=
  clean_column_name_idem_unless_digit_exposed ("AB_c9") false (by decide)

/-! ### C1 / C2: order facts for the aggregation model -/

lemma str_toList_inj {a b : String} (h : a.toList = b.toList) : a = b := by
  cases a
  cases b
  simp only [String.toList] at h
  exact congrArg String.mk h

lemma strLe_iff (a b : String) : strLe a b ↔ strLt a b ∨ a = b := by
  unfold strLe strLt
  rw [le_iff_lt_or_eq]
  constructor
  · rintro (h | h)
    · exact Or.inl h
    · exact Or.inr (str_toList_inj h)
  · rintro (h | rfl)
    · exact Or.inl h
    · exact Or.inr rfl

lemma strLt_trans {a b c : String} (h1 : strLt a b) (h2 : strLt b c) : strLt a c := by
  unfold strLt at *
  exact lt_trans h1 h2

lemma strLt_asymm {a b : String} (h1 : strLt a b) (h2 : strLt b a) : False := by
  unfold strLt at *
  exact absurd h1 (lt_asymm h2)

lemma strLt_irrefl (a : String) (h : strLt a a) : False :=
  strLt_asymm h h

lemma strLe_total (a b : String) : strLe a b ∨ strLe b a := by
  unfold strLe
  exact le_total _ _

lemma strLe_trans {a b c : String} (h1 : strLe a b) (h2 : strLe b c) : strLe a c := by
  unfold strLe at *
  exact le_trans h1 h2

lemma strLt_of_lt_of_le {a b c : String} (h1 : strLt a b) (h2 : strLe b c) : strLt a c := by
  unfold strLt strLe at *
  exact lt_of_lt_of_le h1 h2

lemma strLt_of_le_of_lt {a b c : String} (h1 : strLe a b) (h2 : strLt b c) : strLt a c := by
  unfold strLt strLe at *
  exact lt_of_le_of_lt h1 h2

lemma strLt_trichotomy (a b : String) : strLt a b ∨ a = b ∨ strLt b a := by
  unfold strLt
  rcases lt_trichotomy a.toList b.toList with h | h | h
  · exact Or.inl h
  · exact Or.inr (Or.inl (str_toList_inj h))
  · exact Or.inr (Or.inr h)

lemma keyLT_trans {a b c : String × String} (h1 : keyLT a b) (h2 : keyLT b c) :
    keyLT a c := by
  unfold keyLT at *
  rcases h1 with h1 | ⟨e1, h1⟩ <;> rcases h2 with h2 | ⟨e2, h2⟩
  · exact Or.inl (strLt_trans h1 h2)
  · exact Or.inl (by rw [← e2]; exact h1)
  · exact Or.inl (by rw [e1]; exact h2)
  · exact Or.inr ⟨e1.trans e2, strLt_trans h1 h2⟩

lemma keyLT_asymm {a b : String × String} (h1 : keyLT a b) (h2 : keyLT b a) :
    False := by
  unfold keyLT at *
  rcases h1 with h1 | ⟨e1, h1⟩ <;> rcases h2 with h2 | ⟨e2, h2⟩
  · exact strLt_asymm h1 h2
  · exact strLt_irrefl _ (by rw [e2] at h1; exact h1)
  · exact strLt_irrefl _ (by rw [e1] at h2; exact h2)
  · exact strLt_asymm h1 h2

lemma keyLT_trichotomy (a b : String × String) : keyLT a b ∨ a = b ∨ keyLT b a := by
  unfold keyLT
  rcases strLt_trichotomy a.1 b.1 with h | h | h
  · exact Or.inl (Or.inl h)
  · rcases strLt_trichotomy a.2 b.2 with h2 | h2 | h2
    · exact Or.inl (Or.inr ⟨h, h2⟩)
    · exact Or.inr (Or.inl (Prod.ext h h2))
    · exact Or.inr (Or.inr (Or.inr ⟨h.symm, h2⟩))
  · exact Or.inr (Or.inr (Or.inl h))

lemma keyLE_of_keyLT {a b : String × String} (h : keyLT a b) : keyLE a b := by
  unfold keyLT at h
  unfold keyLE
  rcases h with h | ⟨e, h⟩
  · exact Or.inl h
  · exact Or.inr ⟨e, (strLe_iff _ _).mpr (Or.inl h)⟩

lemma keyLT_of_keyLE_ne {a b : String × String} (h : keyLE a b) (hne : a ≠ b) :
    keyLT a b := by
  unfold keyLE at h
  unfold keyLT
  rcases h with h | ⟨e, h⟩
  · exact Or.inl h
  · rcases (strLe_iff _ _).mp h with h2 | h2
    · exact Or.inr ⟨e, h2⟩
    · exact absurd (Prod.ext e h2) hne

lemma keyLE_trans {a b c : String × String} (h1 : keyLE a b) (h2 : keyLE b c) :
    keyLE a c := by
  unfold keyLE at *
  rcases h1 with h1 | ⟨e1, h1⟩ <;> rcases h2 with h2 | ⟨e2, h2⟩
  · exact Or.inl (strLt_trans h1 h2)
  · exact Or.inl (by rw [← e2]; exact h1)
  · exact Or.inl (by rw [e1]; exact h2)
  · exact Or.inr ⟨e1.trans e2, strLe_trans h1 h2⟩

lemma keyLE_total (a b : String × String) : keyLE a b ∨ keyLE b a := by
  rcases keyLT_trichotomy a b with h | rfl | h
  · exact Or.inl (keyLE_of_keyLT h)
  · exact Or.inl (Or.inr ⟨rfl, (strLe_iff _ _).mpr (Or.inr rfl)⟩)
  · exact Or.inr (keyLE_of_keyLT h)

instance : IsTrans (String × String) keyLE := ⟨fun _ _ _ => keyLE_trans⟩

instance : IsTotal (String × String) keyLE := ⟨keyLE_total⟩

lemma tagLE_trans {x y z : (String × String) × ℕ × MRow}
    (h1 : tagLE x y) (h2 : tagLE y z) : tagLE x z := by
  unfold tagLE at *
  rcases h1 with h1 | ⟨e1, h1⟩ <;> rcases h2 with h2 | ⟨e2, h2⟩
  · exact Or.inl (keyLT_trans h1 h2)
  · exact Or.inl (by rw [← e2]; exact h1)
  · exact Or.inl (by rw [e1]; exact h2)
  · exact Or.inr ⟨e1.trans e2, le_trans h1 h2⟩

lemma tagLE_total (x y : (String × String) × ℕ × MRow) : tagLE x y ∨ tagLE y x := by
  unfold tagLE
  rcases keyLT_trichotomy x.1 y.1 with h | h | h
  · exact Or.inl (Or.inl h)
  · rcases Nat.le_total x.2.1 y.2.1 with h2 | h2
    · exact Or.inl (Or.inr ⟨h, h2⟩)
    · exact Or.inr (Or.inr ⟨h.symm, h2⟩)
  · exact Or.inr (Or.inl h)

instance : IsTrans ((String × String) × ℕ × MRow) tagLE := ⟨fun _ _ _ => tagLE_trans⟩

instance : IsTotal ((String × String) × ℕ × MRow) tagLE := ⟨tagLE_total⟩

lemma tagLT_asymm {x y : (String × String) × ℕ × MRow}
    (h1 : tagLT x y) (h2 : tagLT y x) : False := by
  unfold tagLT at *
  rcases h1 with h1 | ⟨e1, h1⟩ <;> rcases h2 with h2 | ⟨e2, h2⟩
  · exact keyLT_asymm h1 h2
  · rw [e2] at h1
    exact keyLT_asymm h1 h1
  · rw [← e1] at h2
    exact keyLT_asymm h2 h2
  · omega

instance : IsAntisymm ((String × String) × ℕ × MRow) tagLT :=
  ⟨fun a b h1 h2 => absurd h1 (fun h => tagLT_asymm h h2)⟩

lemma tagLT_of_tagLE_ne {x y : (String × String) × ℕ × MRow}
    (h : tagLE x y) (hne : (x.1, x.2.1) ≠ (y.1, y.2.1)) : tagLT x y := by
  unfold tagLE at h
  unfold tagLT
  rcases h with h | ⟨e, h⟩
  · exact Or.inl h
  · rcases Nat.lt_or_ge x.2.1 y.2.1 with h2 | h2
    · exact Or.inr ⟨e, h2⟩
    · have he : x.2.1 = y.2.1 := by omega
      exact absurd (by rw [e, he]) hne

lemma rowOrd_trans {a b c : MRow} (h1 : rowOrd a b) (h2 : rowOrd b c) :
    rowOrd a c := by
  unfold rowOrd at *
  rcases h1 with h1 | ⟨e1, h1⟩ <;> rcases h2 with h2 | ⟨e2, h2⟩
  · exact Or.inl (strLt_trans h1 h2)
  · exact Or.inl (by rw [← e2]; exact h1)
  · exact Or.inl (by rw [e1]; exact h2)
  · refine Or.inr ⟨e1.trans e2, ?_⟩
    rcases h1 with h1 | ⟨f1, h1⟩ <;> rcases h2 with h2 | ⟨f2, h2⟩
    · exact Or.inl (strLt_trans h1 h2)
    · exact Or.inl (by rw [← f2]; exact h1)
    · exact Or.inl (by rw [f1]; exact h2)
    · exact Or.inr ⟨f1.trans f2, strLe_trans h1 h2⟩

lemma rowOrd_total (a b : MRow) : rowOrd a b ∨ rowOrd b a := by
  unfold rowOrd
  rcases strLt_trichotomy a.dataset b.dataset with h | h | h
  · exact Or.inl (Or.inl h)
  · rcases strLt_trichotomy a.version b.version with h2 | h2 | h2
    · exact Or.inl (Or.inr ⟨h, Or.inl h2⟩)
    · rcases strLe_total a.metric b.metric with h3 | h3
      · exact Or.inl (Or.inr ⟨h, Or.inr ⟨h2, h3⟩⟩)
      · exact Or.inr (Or.inr ⟨h.symm, Or.inr ⟨h2.symm, h3⟩⟩)
    · exact Or.inr (Or.inr ⟨h.symm, Or.inl h2⟩)
  · exact Or.inr (Or.inl h)

instance : IsTrans MRow rowOrd := ⟨fun _ _ _ => rowOrd_trans⟩

instance : IsTotal MRow rowOrd := ⟨rowOrd_total⟩

/-! ### C1 / C2: structure of the tagged rows -/

lemma numberFrom_length {α : Type} : ∀ (n : ℕ) (l : List α),
    (numberFrom n l).length = l.length := by
  intro n l
  induction l generalizing n with
  | nil => rfl
  | cons a l ih => rw [numberFrom, List.length_cons, List.length_cons, ih]

lemma numberFrom_fst_ge {α : Type} :
    ∀ {n : ℕ} {l : List α} {x : ℕ × α}, x ∈ numberFrom n l → n ≤ x.1 := by
  intro n l
  induction l generalizing n with
  | nil => intro x h; simp [numberFrom] at h
  | cons a l ih =>
    intro x h
    rw [numberFrom] at h
    rcases List.mem_cons.mp h with rfl | h2
    · exact le_refl n
    · exact le_trans (by omega) (ih h2)

lemma numberFrom_pairwise {α : Type} : ∀ (n : ℕ) (l : List α),
    List.Pairwise (fun a b => a.1 < b.1) (numberFrom n l) := by
  intro n l
  induction l generalizing n with
  | nil => exact List.Pairwise.nil
  | cons a l ih =>
    rw [numberFrom]
    refine List.Pairwise.cons ?_ (ih (n + 1))
    intro x hx
    have := numberFrom_fst_ge hx
    omega

lemma mem_tagSeg {t : List MRow} {k : String × String}
    {x : (String × String) × ℕ × MRow} (h : x ∈ tagSeg t k) :
    x.1 = k ∧ 1 ≤ x.2.1 := by
  unfold tagSeg at h
  obtain ⟨p, hp, he⟩ := List.mem_map.mp h
  rw [← he]
  exact ⟨rfl, numberFrom_fst_ge hp⟩

lemma tagLT_tagkey_ne {x y : (String × String) × ℕ × MRow} (h : tagLT x y) :
    (x.1, x.2.1) ≠ (y.1, y.2.1) := by
  intro he
  have h1 : x.1 = y.1 := congrArg (fun p => p.1) he
  have h2 : x.2.1 = y.2.1 := congrArg (fun p => p.2) he
  unfold tagLT at h
  rcases h with h | ⟨e, h⟩
  · rw [h1] at h
    exact keyLT_asymm h h
  · omega

lemma tagSeg_pairwise (t : List MRow) (k : String × String) :
    List.Pairwise tagLT (tagSeg t k) := by
  unfold tagSeg
  rw [List.pairwise_map]
  refine (numberFrom_pairwise 1 _).imp ?_
  intro a b hab
  unfold tagLT
  exact Or.inr ⟨rfl, hab⟩

lemma tagSeg_length (t : List MRow) (k : String × String) :
    (tagSeg t k).length = (partitionRows t k).length := by
  unfold tagSeg sortPartition
  rw [List.length_map, numberFrom_length]
  exact (List.perm_insertionSort rowOrd _).length_eq

lemma flatMap_tagkey_pairwise (t : List MRow) {ks : List (String × String)}
    (hnd : ks.Nodup) :
    List.Pairwise (fun (x y : (String × String) × ℕ × MRow) =>
      (x.1, x.2.1) ≠ (y.1, y.2.1)) (ks.flatMap (tagSeg t)) := by
  rw [List.flatMap_def, List.pairwise_flatten]
  constructor
  · intro seg hseg
    obtain ⟨k, _, rfl⟩ := List.mem_map.mp hseg
    exact (tagSeg_pairwise t k).imp (fun h => tagLT_tagkey_ne h)
  · rw [List.pairwise_map]
    refine hnd.imp ?_
    intro k1 k2 h12 x hx y hy
    have hx1 := (mem_tagSeg hx).1
    have hy1 := (mem_tagSeg hy).1
    intro he
    have hfst : x.1 = y.1 := congrArg (fun p => p.1) he
    exact h12 (by rw [← hx1, ← hy1]; exact hfst)

lemma sorted_tagLT_left (t : List MRow) :
    List.Pairwise tagLT
      (List.insertionSort tagLE ((distinctKeys t).flatMap (tagSeg t))) := by
  have hnd : (distinctKeys t).Nodup := List.nodup_dedup _
  have hperm := List.perm_insertionSort tagLE ((distinctKeys t).flatMap (tagSeg t))
  have hpne : List.Pairwise (fun (x y : (String × String) × ℕ × MRow) =>
      (x.1, x.2.1) ≠ (y.1, y.2.1))
      (List.insertionSort tagLE ((distinctKeys t).flatMap (tagSeg t))) :=
    (hperm.pairwise_iff (fun h he => h he.symm)).mpr
      (flatMap_tagkey_pairwise t hnd)
  have hsorted := List.sorted_insertionSort tagLE ((distinctKeys t).flatMap (tagSeg t))
  exact (List.Pairwise.and hsorted hpne).imp (fun h => tagLT_of_tagLE_ne h.1 h.2)

lemma sorted_tagLT_right (t : List MRow) :
    List.Pairwise tagLT
      ((List.insertionSort keyLE (distinctKeys t)).flatMap (tagSeg t)) := by
  have hnd : (List.insertionSort keyLE (distinctKeys t)).Nodup :=
    ((List.perm_insertionSort keyLE _).nodup_iff).mpr (List.nodup_dedup _)
  have hsortk := List.sorted_insertionSort keyLE (distinctKeys t)
  have hkLT : List.Pairwise keyLT (List.insertionSort keyLE (distinctKeys t)) :=
    (List.Pairwise.and hsortk hnd).imp (fun h => keyLT_of_keyLE_ne h.1 h.2)
  rw [List.flatMap_def, List.pairwise_flatten]
  constructor
  · intro seg hseg
    obtain ⟨k, _, rfl⟩ := List.mem_map.mp hseg
    exact tagSeg_pairwise t k
  · rw [List.pairwise_map]
    refine hkLT.imp ?_
    intro k1 k2 h12 x hx y hy
    have hx1 := (mem_tagSeg hx).1
    have hy1 := (mem_tagSeg hy).1
    unfold tagLT
    exact Or.inl (by rw [hx1, hy1]; exact h12)

lemma tagged_eq (t : List MRow) :
    List.insertionSort tagLE ((distinctKeys t).flatMap (tagSeg t))
      = (List.insertionSort keyLE (distinctKeys t)).flatMap (tagSeg t) := by
  have hperm : (List.insertionSort tagLE ((distinctKeys t).flatMap (tagSeg t))).Perm
      ((List.insertionSort keyLE (distinctKeys t)).flatMap (tagSeg t)) :=
    (List.perm_insertionSort tagLE _).trans
      ((List.Perm.flatMap_right (tagSeg t) (List.perm_insertionSort keyLE _)).symm)
  exact List.eq_of_perm_of_sorted hperm (sorted_tagLT_left t) (sorted_tagLT_right t)

/-! ### C1 / C2: the query equals the spec construction -/

lemma numberFrom_ge2_map_blank (ncols : ℕ) (t : List MRow) (k : String × String) :
    ∀ (rest : List MRow) (m : ℕ), 2 ≤ m →
      (numberFrom m rest).map (fun p => projT ncols t (k, p))
        = rest.map (blankRow ncols) := by
  intro rest
  induction rest with
  | nil => intro m _; rfl
  | cons r rs ih =>
    intro m hm
    rw [numberFrom, List.map_cons, List.map_cons, ih (m + 1) (by omega)]
    congr 1
    unfold projT blankRow
    have hm1 : ¬(m = 1) := by omega
    simp [hm1]

lemma collapseGroup_eq (ncols : ℕ) (t : List MRow) (k : String × String)
    (rows : List MRow) :
    collapseGroup k (avgVals ncols (partitionRows t k)) ncols rows
      = (numberFrom 1 rows).map (fun p => projT ncols t (k, p)) := by
  cases rows with
  | nil => rfl
  | cons r rest =>
    rw [collapseGroup,
        show numberFrom 1 (r :: rest) = (1, r) :: numberFrom 2 rest from rfl,
        List.map_cons, numberFrom_ge2_map_blank ncols t k rest 2 (le_refl 2)]
    rfl

lemma aggregatorSpec_eq_map (ncols : ℕ) (t : List MRow) :
    aggregatorSpec ncols t
      = ((List.insertionSort keyLE (distinctKeys t)).flatMap (tagSeg t)).map
          (projT ncols t) := by
  unfold aggregatorSpec
  rw [List.map_flatMap]
  rw [List.flatMap_def, List.flatMap_def]
  congr 1
  apply List.map_congr_left
  intro k _
  rw [collapseGroup_eq ncols t k]
  unfold tagSeg
  rw [List.map_map]
  rfl

/-- The embedded SQL query coincides with the spec §4.5 construction whenever
there is at least one numeric suffix column. -/
lemma grouped_eq (t : List MRow) {ncols : ℕ} (hn : ncols ≠ 0) :
    get_grouped_statistics ncols t = aggregatorSpec ncols t := by
  unfold get_grouped_statistics
  rw [if_neg hn, tagged_eq, aggregatorSpec_eq_map]

lemma instr_some {ds : String} {c : Char} {i : ℕ}
    (h : ds.toList.findIdx? (fun x => x = c) = some i) : instr ds c = i + 1 := by
  unfold instr
  rw [h]

lemma instr_none {ds : String} {c : Char}
    (h : ds.toList.findIdx? (fun x => x = c) = none) : instr ds c = 0 := by
  unfold instr
  rw [h]

/-- The SQL `CASE` splitter equals the spec-worded family-key splitter. -/
lemma dataset_identifier_eq_spec (ds : String) :
    dataset_identifier ds = familyKeySpec ds := by
  unfold dataset_identifier familyKeySpec
  cases hu : ds.toList.findIdx? (fun x => x = '_') with
  | none =>
    cases hh : ds.toList.findIdx? (fun x => x = '-') with
    | none => rw [instr_none hu, instr_none hh]; simp
    | some j => rw [instr_none hu, instr_some hh]; simp
  | some i =>
    cases hh : ds.toList.findIdx? (fun x => x = '-') with
    | none => rw [instr_some hu, instr_none hh]; simp
    | some j =>
      rw [instr_some hu, instr_some hh, if_pos ⟨by omega, by omega⟩]
      by_cases hij : i < j
      · rw [if_pos (by omega)]
        show strTake ds (i + 1 - 1) = strTake ds (min i j)
        congr 1
        omega
      · rw [if_neg (by omega)]
        show strTake ds (j + 1 - 1) = strTake ds (min i j)
        congr 1
        omega

/-! ### C1: row counting -/

lemma countP_mem_cons_split {α κ : Type} [DecidableEq κ] (f : α → κ) (l : List α)
    {k : κ} {ks : List κ} (hk : k ∉ ks) :
    l.countP (fun a => decide (f a ∈ k :: ks))
      = l.countP (fun a => decide (f a = k)) + l.countP (fun a => decide (f a ∈ ks)) := by
  induction l with
  | nil => simp
  | cons a l ih =>
    rw [List.countP_cons, List.countP_cons, List.countP_cons, ih]
    rcases Decidable.em (f a = k) with h1 | h1
    · rw [if_pos (by simp [h1] : decide (f a ∈ k :: ks) = true),
          if_pos (by simp [h1] : decide (f a = k) = true),
          if_neg (by simp [h1]; exact hk : ¬ decide (f a ∈ ks) = true)]
      omega
    · rcases Decidable.em (f a ∈ ks) with h3 | h3
      · rw [if_pos (by simp [List.mem_cons, h3] : decide (f a ∈ k :: ks) = true),
            if_neg (by simp [h1] : ¬ decide (f a = k) = true),
            if_pos (by simp [h3] : decide (f a ∈ ks) = true)]
        omega
      · rw [if_neg (by simp [List.mem_cons, h1, h3] : ¬ decide (f a ∈ k :: ks) = true),
            if_neg (by simp [h1] : ¬ decide (f a = k) = true),
            if_neg (by simp [h3] : ¬ decide (f a ∈ ks) = true)]
        omega

lemma sum_countP_keys {α κ : Type} [DecidableEq κ] (f : α → κ) (l : List α) :
    ∀ (ks : List κ), ks.Nodup →
      ((ks.map (fun k => l.countP (fun a => decide (f a = k)))).sum)
        = l.countP (fun a => decide (f a ∈ ks)) := by
  intro ks
  induction ks with
  | nil => intro _; simp
  | cons k ks ih =>
    intro hnd
    rw [List.map_cons, List.sum_cons, ih (List.nodup_cons.mp hnd).2,
        countP_mem_cons_split f l (List.nodup_cons.mp hnd).1]

lemma length_partition_sum (t : List MRow) :
    (((distinctKeys t).map (fun k => (partitionRows t k).length)).sum) = t.length := by
  have hcong : (distinctKeys t).map (fun k => (partitionRows t k).length)
      = (distinctKeys t).map
          (fun k => t.countP (fun a => decide (partitionKeyOf a = k))) := by
    apply List.map_congr_left
    intro k _
    unfold partitionRows
    rw [List.countP_eq_length_filter]
  rw [hcong, sum_countP_keys partitionKeyOf t (distinctKeys t) (List.nodup_dedup _)]
  apply List.countP_eq_length.mpr
  intro a ha
  simp only [decide_eq_true_eq]
  unfold distinctKeys
  exact List.mem_dedup.mpr (List.mem_map_of_mem partitionKeyOf ha)

lemma aggregatorSpec_length (ncols : ℕ) (t : List MRow) :
    (aggregatorSpec ncols t).length = t.length := by
  rw [aggregatorSpec_eq_map, List.length_map, List.length_flatMap]
  rw [((List.perm_insertionSort keyLE (distinctKeys t)).map
      (List.length ∘ tagSeg t)).sum_eq]
  have hcong : (distinctKeys t).map (List.length ∘ tagSeg t)
      = (distinctKeys t).map (fun k => (partitionRows t k).length) :=
    List.map_congr_left (fun k _ => tagSeg_length t k)
  rw [hcong, length_partition_sum]

/-! ### C1: the averages shown on first rows -/

lemma avgVals_getD (ncols : ℕ) (rs : List MRow) {j : ℕ} (hj : j < ncols) :
    (avgVals ncols rs).getD j none = Option.map SqlCell.num (avgCol rs j) := by
  unfold avgVals
  rw [List.getD_eq_getElem?_getD, List.getElem?_map,
      List.getElem?_eq_getElem (by simpa using hj)]
  simp [List.getElem_range]

lemma aggregatorSpec_first_row_avg {ncols : ℕ} {t : List MRow} {o : MRow}
    (ho : o ∈ aggregatorSpec ncols t) (hds : o.dataset ≠ "") :
    o.vals = avgVals ncols (partitionRows t (o.dataset, o.metric)) := by
  unfold aggregatorSpec at ho
  rw [List.mem_flatMap] at ho
  obtain ⟨k, _, hok⟩ := ho
  cases hsp : sortPartition (partitionRows t k) with
  | nil =>
    rw [hsp] at hok
    simp [collapseGroup] at hok
  | cons r rest =>
    rw [hsp] at hok
    rw [collapseGroup] at hok
    rcases List.mem_cons.mp hok with rfl | ho2
    · have hrmem : r ∈ partitionRows t k := by
        have hr : r ∈ sortPartition (partitionRows t k) := by
          rw [hsp]
          exact List.mem_cons_self _ _
        unfold sortPartition at hr
        exact (List.mem_insertionSort rowOrd).mp hr
      have hkey : partitionKeyOf r = k := by
        unfold partitionRows at hrmem
        simpa using (List.mem_filter.mp hrmem).2
      have hmet : r.metric = k.2 := congrArg (fun p => p.2) hkey
      show avgVals ncols (partitionRows t k)
          = avgVals ncols (partitionRows t (k.1, r.metric))
      rw [hmet, Prod.mk.eta]
    · obtain ⟨r2, _, he⟩ := List.mem_map.mp ho2
      rw [← he] at hds
      simp [blankRow] at hds

/-! ### C1 / C2: the claims -/

/-- C1 (counterexample): two failures of the claim.  First, a populated
table whose schema has no numeric suffix column makes
`get_grouped_statistics` return `[]` (the `if not numeric_columns: return
[]` early exit at line 610), so the output row count is 0, not the input row
count 1.  Second, averages are not computed only over non-null *numeric*
values: on a one-row table whose single suffix cell holds the non-numeric
text `"hello"` — reachable, since the loader's parse-failure fallback stores
literal text and the name-based `numeric_columns` list feeds every suffix
column to `AVG` — the displayed average is 0 (SQLite's numeric affinity
coerces the text to 0 and counts it), whereas the claim's averaging rule,
seeing no numeric values at all, would yield NULL. -/
theorem grouped_output_drops_rows_without_numeric_columns :
    (get_grouped_statistics 0 [rowNoCols] = [] ∧
     ([rowNoCols] : List MRow).length = 1) ∧
    (rowTextCell.vals = [some (SqlCell.text ("hello"))] ∧
     avgColSpecNumeric [rowTextCell] 0 = none ∧
     (get_grouped_statistics 1 [rowTextCell]).map MRow.vals
        = [[some (SqlCell.num 0)]]) := by
  refine ⟨⟨rfl, rfl⟩, rfl, by decide, ?_⟩
  have havg : avgCol [rowTextCell] 0 = some 0 := by
    have h1 : List.filterMap (fun r => r.vals.getD 0 none) [rowTextCell]
        = [SqlCell.text ("hello")] := rfl
    unfold avgCol
    rw [h1, if_neg (by decide),
        show List.map sqliteRealValue [SqlCell.text ("hello")] = [(0 : ℚ)] from by decide]
    norm_num
  show [[Option.map SqlCell.num (avgCol [rowTextCell] 0)]] = [[some (SqlCell.num 0)]]
  rw [havg]
  rfl

/-- C1 (amended): for every populated input table with at least one metric
(suffix) column, the aggregator returns exactly as many display rows as
there are input rows, and on every row that carries a dataset label each
shown average is the SQLite `AVG` of that column over the row's partition:
NULL cells are ignored, every other cell — numbers, and text cells under
numeric-affinity coercion, non-numeric text counting as 0 — enters the sum
and the denominator, and a column whose cells are all NULL in the partition
yields NULL, not zero. -/
theorem grouped_output_row_count_and_null_safe_averages (ncols : ℕ)
    (t : List MRow) (hn : ncols ≠ 0) (ht : t ≠ []) :
    (get_grouped_statistics ncols t).length = t.length ∧
    (∀ o ∈ get_grouped_statistics ncols t, o.dataset ≠ "" → ∀ j, j < ncols →
      o.vals.getD j none = Option.map SqlCell.num
        (if ((partitionRows t (o.dataset, o.metric)).filterMap
              (fun r => r.vals.getD j none)).isEmpty
         then none
         else some ((((partitionRows t (o.dataset, o.metric)).filterMap
              (fun r => r.vals.getD j none)).map sqliteRealValue).sum
            / (((partitionRows t (o.dataset, o.metric)).filterMap
              (fun r => r.vals.getD j none)).length : ℚ)))) := by
  constructor
  · rw [grouped_eq t hn, aggregatorSpec_length]
  · intro o ho hds j hj
    rw [grouped_eq t hn] at ho
    rw [aggregatorSpec_first_row_avg ho hds, avgVals_getD ncols _ hj]
    rfl

/-- Witness for C1's amended theorem at a one-column, one-row table. -/
theorem grouped_output_row_count_witness :
    (get_grouped_statistics 1 [rowOneCol]).length = ([rowOneCol] : List MRow).length :=
  (grouped_output_row_count_and_null_safe_averages 1 [rowOneCol]
    (by decide) (by decide)).1

/-- C2 (counterexample): two failures of the claim.  First, with no numeric
suffix column the query is never issued and `get_grouped_statistics` returns
`[]`, while the claimed partition/collapse display still emits one row per
input row.  Second, the "computed averages" the first row shows are not the
spec's means over numeric values: on a one-row table whose suffix cell is
the non-numeric text `"abc"` (reachable via the loader's text fallbacks) the
program displays 0 — SQLite's `AVG` coerces the text with numeric affinity —
where the mean over the (empty set of) numeric values is NULL. -/
theorem grouped_statistics_spec_fails_without_numeric_columns :
    (get_grouped_statistics 0 [rowNoCols2] = [] ∧
     aggregatorSpec 0 [rowNoCols2] ≠ [] ∧
     get_grouped_statistics 0 [rowNoCols2] ≠ aggregatorSpec 0 [rowNoCols2]) ∧
    (rowTextCell2.vals = [some (SqlCell.text ("abc"))] ∧
     avgColSpecNumeric [rowTextCell2] 0 = none ∧
     (get_grouped_statistics 1 [rowTextCell2]).map MRow.vals
        = [[some (SqlCell.num 0)]] ∧
     some (SqlCell.num (0 : ℚ)) ≠ Option.map SqlCell.num (avgColSpecNumeric [rowTextCell2] 0)) := by
  refine ⟨⟨rfl, by decide, by decide⟩, rfl, by decide, ?_, by decide⟩
  have havg : avgCol [rowTextCell2] 0 = some 0 := by
    have h1 : List.filterMap (fun r => r.vals.getD 0 none) [rowTextCell2]
        = [SqlCell.text ("abc")] := rfl
    unfold avgCol
    rw [h1, if_neg (by decide),
        show List.map sqliteRealValue [SqlCell.text ("abc")] = [(0 : ℚ)] from by decide]
    norm_num
  show [[Option.map SqlCell.num (avgCol [rowTextCell2] 0)]] = [[some (SqlCell.num 0)]]
  rw [havg]
  rfl

/-- C2 (amended): for every populated input table with at least one metric
(suffix) column, the aggregator output equals the spec §4.5 construction
`aggregatorSpec`: rows partitioned by (family key, metric); partitions
emitted in lexicographic key order; within a partition rows sorted by
(dataset, version, metric); only the first row of a partition shows the
family key and the computed per-partition aggregates — SQLite `AVG` values,
which ignore NULL cells but coerce and count non-NULL text cells
(non-numeric text as 0) — while every other row shows a blank label and NULL
averaged columns; version, metric, parameter and mode passed through
per-row.  The family key agrees with the spec's splitter (earlier of the
first `_` / `-`, the one that occurs, else the whole value), and
`sortPartition` indeed orders by the (dataset, version, metric) triple. -/
theorem grouped_statistics_eq_spec_aggregation (ncols : ℕ) (t : List MRow)
    (hn : ncols ≠ 0) :
    get_grouped_statistics ncols t = aggregatorSpec ncols t ∧
    (∀ ds : String, dataset_identifier ds = familyKeySpec ds) ∧
    (∀ rs : List MRow, List.Sorted rowOrd (sortPartition rs) ∧ (sortPartition rs).Perm rs) := by
  refine ⟨grouped_eq t hn, dataset_identifier_eq_spec, ?_⟩
  intro rs
  exact ⟨List.sorted_insertionSort rowOrd rs, List.perm_insertionSort rowOrd rs⟩

/-- Witness for C2's amended theorem at a one-column, one-row table. -/
theorem grouped_statistics_eq_spec_witness :
    get_grouped_statistics 1 [rowOneCol2] = aggregatorSpec 1 [rowOneCol2] :=
  (grouped_statistics_eq_spec_aggregation 1 [rowOneCol2] (by decide)).1

end EasySqlshow


